import Mathlib

/-!
Verification of the infinitetalk-api job orchestration core.

Shallow embedding of:
- the Job aggregate and its state machine (src/internal/job/job.go),
- the service-level chunk bookkeeping, sequential chunk loop and
  orchestration run (src/internal/job/service.go),
- the silence-bounded audio splitter (src/internal/audio/ffmpeg.go).

Modelling conventions:
- wall-clock times (time.Now()) are an explicit `now : Nat` argument;
- Go errors are `Option`/`Except` values carrying the message string;
- float64 durations and timestamps of the splitter are rationals: the
  algorithm is pure field arithmetic (midpoints, thirds, halves), exact here;
- external effects (ffmpeg, storage, the provider) are oracles passed as
  arguments, one `Except` result per call site, so a run is a pure function
  of the job, the input and the oracle.
-/

namespace InfiniteTalk

/-! ## Job aggregate: src/internal/job/job.go -/

/-- Job status, aligned with RunPod states (job.go `Status`). -/
inductive Status where
  | inQueue
  | running
  | completed
  | failed
  | cancelled
  | timedOut
deriving DecidableEq, Repr, Fintype

/-- Status of a single chunk (job.go `ChunkStatus`). -/
inductive ChunkStatus where
  | pending
  | processing
  | completed
  | failed
deriving DecidableEq, Repr, Fintype

/-- The only state-machine error: job.go `ErrInvalidTransition`. -/
inductive JobError where
  | invalidTransition
deriving DecidableEq, Repr

/-- One audio/video segment record (job.go `Chunk`). -/
structure Chunk where
  id : String := ""
  index : Int := 0
  status : ChunkStatus := .pending
  inputPath : String := ""
  outputPath : String := ""
  runPodJobID : String := ""
  error : String := ""
  startedAt : Nat := 0
  completedAt : Nat := 0
deriving DecidableEq, Repr

/-- The job aggregate (job.go `Job`). The Go mutex serialises access and is
not part of the data; `provider` is kept as its string value. -/
structure Job where
  id : String := ""
  provider : String := "runpod"
  status : Status := .inQueue
  chunks : List Chunk := []
  progress : Int := 0
  error : String := ""
  inputImagePath : String := ""
  inputAudioPath : String := ""
  outputVideoPath : String := ""
  width : Int := 0
  height : Int := 0
  pushToS3 : Bool := false
  videoURL : String := ""
  createdAt : Nat := 0
  updatedAt : Nat := 0
  startedAt : Nat := 0
  completedAt : Nat := 0
deriving DecidableEq, Repr

/-- job.go `validTransitions`: the table of allowed transitions. -/
def validTransitions : Status → List Status
  | .inQueue => [.running, .cancelled, .timedOut]
  | .running => [.completed, .failed, .cancelled, .timedOut]
  | .completed => []
  | .failed => []
  | .cancelled => []
  | .timedOut => []

/-- job.go `canTransition`: table lookup followed by a linear scan. Every
status is a key of the Go map, so the missing-key branch cannot fire. -/
def canTransition (fromStatus toStatus : Status) : Bool :=
  (validTransitions fromStatus).contains toStatus

/-- job.go `Job.TransitionTo`. Mutation is modelled by returning the new job
together with the Go error value; on `invalidTransition` the receiver is
returned untouched, mirroring the early return before any field write. -/
def Job.transitionTo (j : Job) (status : Status) (now : Nat) : Job × Option JobError :=
  if canTransition j.status status then
    ({ j with
        status := status
        updatedAt := now
        startedAt := if status = .running then now else j.startedAt
        completedAt :=
          if status = .completed ∨ status = .failed ∨ status = .cancelled ∨ status = .timedOut
          then now else j.completedAt }, none)
  else (j, some .invalidTransition)

/-- job.go `Job.Start`. -/
def Job.start (j : Job) (now : Nat) : Job × Option JobError :=
  j.transitionTo .running now

/-- job.go `Job.Complete`. -/
def Job.complete (j : Job) (now : Nat) : Job × Option JobError :=
  j.transitionTo .completed now

/-- job.go `Job.Fail`: records the error message first, then attempts the
transition to FAILED. -/
def Job.fail (j : Job) (errMsg : String) (now : Nat) : Job × Option JobError :=
  ({ j with error := errMsg }).transitionTo .failed now

/-- job.go `Job.Cancel`. -/
def Job.cancel (j : Job) (now : Nat) : Job × Option JobError :=
  j.transitionTo .cancelled now

/-- job.go `Job.Timeout`. -/
def Job.timeout (j : Job) (now : Nat) : Job × Option JobError :=
  j.transitionTo .timedOut now

/-- job.go `Job.SetChunks`. -/
def Job.setChunks (j : Job) (chunks : List Chunk) (now : Nat) : Job :=
  { j with chunks := chunks, updatedAt := now }

/-- job.go `Job.UpdateChunk`: guarded by `index >= 0 && index < len(j.Chunks)`;
out of range it writes nothing at all. -/
def Job.updateChunk (j : Job) (index : Int) (chunk : Chunk) (now : Nat) : Job :=
  if 0 ≤ index ∧ index < (j.chunks.length : Int) then
    { j with chunks := j.chunks.set index.toNat chunk, updatedAt := now }
  else j

/-- job.go `Job.UpdateProgress`: clamps to [0, 100]. -/
def Job.updateProgress (j : Job) (progress : Int) (now : Nat) : Job :=
  let p1 := if progress < 0 then 0 else progress
  let p2 := if p1 > 100 then 100 else p1
  { j with progress := p2, updatedAt := now }

/-- job.go `Job.SetOutput`. -/
def Job.setOutput (j : Job) (videoPath videoURL : String) (now : Nat) : Job :=
  { j with outputVideoPath := videoPath, videoURL := videoURL, updatedAt := now }

/-- job.go `Job.ClearOutput`. -/
def Job.clearOutput (j : Job) (now : Nat) : Job :=
  { j with outputVideoPath := "", videoURL := "", updatedAt := now }

/-- job.go `Job.IsTerminal`. -/
def Job.isTerminal (j : Job) : Bool :=
  j.status = .completed ∨ j.status = .failed ∨ j.status = .cancelled ∨ j.status = .timedOut

/-- The transition table exactly as the spec §4.1 lists it, written from the
spec wording for comparison with the code table. -/
def specAllowedTransition (fromStatus toStatus : Status) : Prop :=
  (fromStatus = .inQueue ∧
    (toStatus = .running ∨ toStatus = .cancelled ∨ toStatus = .timedOut)) ∨
  (fromStatus = .running ∧
    (toStatus = .completed ∨ toStatus = .failed ∨ toStatus = .cancelled ∨ toStatus = .timedOut))

instance (f t : Status) : Decidable (specAllowedTransition f t) := by
  unfold specAllowedTransition
  infer_instance

theorem canTransition_iff_spec (f t : Status) :
    canTransition f t = true ↔ specAllowedTransition f t := by
  revert f t
  decide

/-- C1: TransitionTo succeeds exactly on the edges of the §4.1 table
(IN_QUEUE to RUNNING, CANCELLED or TIMED_OUT; RUNNING to COMPLETED, FAILED,
CANCELLED or TIMED_OUT); any other pair yields invalidTransition and leaves
the job, including its status and timestamps, unchanged. -/
theorem transitionTo_table_complete (j : Job) (s : Status) (now : Nat) :
    ((j.transitionTo s now).2 = none ↔ specAllowedTransition j.status s) ∧
    ((j.transitionTo s now).2 ≠ none → (j.transitionTo s now).1 = j) := by
  unfold Job.transitionTo
  by_cases h : canTransition j.status s = true
  · simp [if_pos h, (canTransition_iff_spec j.status s).mp h]
  · have hs : ¬ specAllowedTransition j.status s := fun hc =>
      h ((canTransition_iff_spec j.status s).mpr hc)
    simp [if_neg h, hs]

/-- Closed instance of C1: a COMPLETED job rejects a transition to RUNNING
and is left unchanged. -/
theorem transitionTo_table_complete_witness :
    (({ status := .completed : Job }.transitionTo .running 7).2 = none ↔
      specAllowedTransition .completed .running) ∧
    (({ status := .completed : Job }.transitionTo .running 7).2 ≠ none →
      ({ status := .completed : Job }.transitionTo .running 7).1 = { status := .completed : Job }) :=
  transitionTo_table_complete { status := .completed : Job } .running 7

/-- C3 counterexample: Fail on an already COMPLETED job returns
invalidTransition and leaves the status COMPLETED, but the Error field is
set to the message rather than left empty, because Fail records the message
before attempting the transition. -/
theorem fail_on_completed_sets_error_counterexample :
    (({ status := .completed : Job }.fail "boom" 5).2 = some .invalidTransition) ∧
    (({ status := .completed : Job }.fail "boom" 5).1.status = .completed) ∧
    ¬ (({ status := .completed : Job }.fail "boom" 5).1.error = "") := by
  decide

/-- C3 amended: Fail on a job that is not RUNNING returns invalidTransition
and leaves the status and timestamps unchanged, but it always records the
message in Error first; so the invariant that Error is non-empty only when
the status is FAILED is not preserved by Fail. -/
theorem fail_records_message_even_when_invalid (j : Job) (msg : String) (now : Nat)
    (h : j.status ≠ .running) :
    (j.fail msg now).2 = some .invalidTransition ∧
    (j.fail msg now).1.status = j.status ∧
    (j.fail msg now).1.updatedAt = j.updatedAt ∧
    (j.fail msg now).1.completedAt = j.completedAt ∧
    (j.fail msg now).1.error = msg := by
  have hc : canTransition j.status .failed = false := by
    revert h
    cases j.status <;> decide
  unfold Job.fail Job.transitionTo
  simp [hc]

/-- Closed instance of the amended C3 at a COMPLETED job. -/
theorem fail_records_message_even_when_invalid_witness :
    (({ status := .completed : Job }.fail "late failure" 9).2 = some .invalidTransition) ∧
    (({ status := .completed : Job }.fail "late failure" 9).1.status = .completed) ∧
    (({ status := .completed : Job }.fail "late failure" 9).1.updatedAt = 0) ∧
    (({ status := .completed : Job }.fail "late failure" 9).1.completedAt = 0) ∧
    (({ status := .completed : Job }.fail "late failure" 9).1.error = "late failure") :=
  fail_records_message_even_when_invalid { status := .completed : Job } "late failure" 9
    (by decide)

/-! ## Service-level chunk bookkeeping: src/internal/job/service.go -/

/-- In-place update of the element at position `n`, used for the direct
`job.Chunks[idx] = ...` field writes of the service. -/
def modifyNth {α : Type} (f : α → α) : Nat → List α → List α
  | _, [] => []
  | 0, c :: cs => f c :: cs
  | n + 1, c :: cs => c :: modifyNth f n cs

theorem length_modifyNth {α : Type} (f : α → α) :
    ∀ (n : Nat) (l : List α), (modifyNth f n l).length = l.length := by
  intro n l
  induction l generalizing n with
  | nil => cases n <;> rfl
  | cons c cs ih => cases n with
    | zero => rfl
    | succ m => simpa [modifyNth] using ih m

theorem get?_modifyNth_ne {α : Type} (f : α → α) :
    ∀ (n k : Nat) (l : List α), k ≠ n → (modifyNth f n l)[k]? = l[k]? := by
  intro n k l
  induction l generalizing n k with
  | nil => intro _; cases n <;> rfl
  | cons c cs ih =>
    intro hk
    cases n with
    | zero =>
      cases k with
      | zero => exact absurd rfl hk
      | succ m => simp [modifyNth]
    | succ m =>
      cases k with
      | zero => simp [modifyNth]
      | succ k2 =>
        have := ih m k2 (by omega)
        simpa [modifyNth] using this

theorem get?_modifyNth_eq {α : Type} (f : α → α) :
    ∀ (n : Nat) (l : List α), (modifyNth f n l)[n]? = l[n]?.map f := by
  intro n l
  induction l generalizing n with
  | nil => cases n <;> rfl
  | cons c cs ih => cases n with
    | zero => simp [modifyNth]
    | succ m => simpa [modifyNth] using ih m

/-- service.go `ProcessVideoService.updateChunkStatus`: sets status and error
of chunk `idx` and stamps StartedAt on PROCESSING, CompletedAt on COMPLETED
or FAILED; guarded by `idx >= 0 && idx < len(job.Chunks)`. -/
def updateChunkStatus (j : Job) (idx : Int) (status : ChunkStatus) (errMsg : String)
    (now : Nat) : Job :=
  if 0 ≤ idx ∧ idx < (j.chunks.length : Int) then
    { j with chunks := modifyNth (fun c =>
        { c with
            status := status
            error := errMsg
            startedAt := if status = .processing then now else c.startedAt
            completedAt := if status = .completed ∨ status = .failed then now
              else c.completedAt }) idx.toNat j.chunks }
  else j

/-- C10: with an index outside [0, number of chunks), both Job.UpdateChunk and
the service updateChunkStatus leave the job entirely unchanged; the bounds
guard also means the Go slice access is never out of range, so neither call
can panic. -/
theorem updateChunk_out_of_range_noop (j : Job) (index : Int) (c : Chunk)
    (st : ChunkStatus) (errMsg : String) (now : Nat)
    (h : index < 0 ∨ (j.chunks.length : Int) ≤ index) :
    j.updateChunk index c now = j ∧ updateChunkStatus j index st errMsg now = j := by
  have hneg : ¬ (0 ≤ index ∧ index < (j.chunks.length : Int)) := by omega
  constructor
  · unfold Job.updateChunk
    rw [if_neg hneg]
  · unfold updateChunkStatus
    rw [if_neg hneg]

/-- Closed instance of C10 at index 5 of a two-chunk job. -/
theorem updateChunk_out_of_range_noop_witness :
    ({ chunks := [{}, {}] : Job }.updateChunk 5 {} 3 = { chunks := [{}, {}] : Job }) ∧
    (updateChunkStatus { chunks := [{}, {}] : Job } 5 .failed "x" 3 =
      { chunks := [{}, {}] : Job }) :=
  updateChunk_out_of_range_noop { chunks := [{}, {}] : Job } 5 {} .failed "x" 3
    (by decide)

/-! ## DeleteJobVideo: src/internal/job/service.go `DeleteJobVideo`

The filesystem is a predicate on paths; `os.Remove` on a present file removes
it, on an absent file returns IsNotExist, which the code treats as success.
Other I/O failures of Remove are outside this model. The repository Save of
the in-memory store never fails and is implicit. The Bool is the success of
the whole call for a job that was found. -/

/-- service.go `ProcessVideoService.DeleteJobVideo`, for an existing job. -/
def deleteJobVideo (fileExists : String → Bool) (j : Job) (now : Nat) :
    (String → Bool) × Job × Bool :=
  if j.outputVideoPath ≠ "" then
    if fileExists j.outputVideoPath then
      (fun p => if p = j.outputVideoPath then false else fileExists p,
        j.clearOutput now, true)
    else
      (fileExists, j.clearOutput now, true)
  else (fileExists, j.clearOutput now, true)

/-- C8: DeleteJobVideo on an existing job succeeds whether or not the output
file is present, clears OutputVideoPath and the output URL, leaves the status
unchanged, and a second run (at the same clock value) returns exactly the same
filesystem and job state. -/
theorem deleteJobVideo_idempotent (fileExists : String → Bool) (j : Job) (now : Nat) :
    (deleteJobVideo fileExists j now).2.2 = true ∧
    (deleteJobVideo fileExists j now).2.1.outputVideoPath = "" ∧
    (deleteJobVideo fileExists j now).2.1.videoURL = "" ∧
    (deleteJobVideo fileExists j now).2.1.status = j.status ∧
    deleteJobVideo (deleteJobVideo fileExists j now).1
        (deleteJobVideo fileExists j now).2.1 now =
      deleteJobVideo fileExists j now := by
  have hclear : ∀ (fs : String → Bool) (j2 : Job),
      deleteJobVideo fs (j2.clearOutput now) now = (fs, j2.clearOutput now, true) := by
    intro fs j2
    unfold deleteJobVideo Job.clearOutput
    simp
  unfold deleteJobVideo
  by_cases hp : j.outputVideoPath ≠ ""
  · by_cases hf : fileExists j.outputVideoPath = true
    · simp only [if_pos hp, if_pos hf]
      refine ⟨by trivial, by simp [Job.clearOutput], by simp [Job.clearOutput],
        by simp [Job.clearOutput], ?_⟩
      simpa using hclear (fun p => if p = j.outputVideoPath then false else fileExists p) j
    · simp only [if_pos hp, if_neg hf]
      refine ⟨by trivial, by simp [Job.clearOutput], by simp [Job.clearOutput],
        by simp [Job.clearOutput], ?_⟩
      simpa using hclear fileExists j
  · simp only [if_neg hp]
    refine ⟨by trivial, by simp [Job.clearOutput], by simp [Job.clearOutput],
      by simp [Job.clearOutput], ?_⟩
    simpa using hclear fileExists j

/-- Closed instance of C8: deletion with the artifact already absent. -/
theorem deleteJobVideo_idempotent_witness :
    ((deleteJobVideo (fun _ => false)
        { outputVideoPath := "output_j1.mp4", videoURL := "u", status := .completed : Job }
        4).2.2 = true) ∧
    ((deleteJobVideo (fun _ => false)
        { outputVideoPath := "output_j1.mp4", videoURL := "u", status := .completed : Job }
        4).2.1.outputVideoPath = "") ∧
    ((deleteJobVideo (fun _ => false)
        { outputVideoPath := "output_j1.mp4", videoURL := "u", status := .completed : Job }
        4).2.1.videoURL = "") ∧
    ((deleteJobVideo (fun _ => false)
        { outputVideoPath := "output_j1.mp4", videoURL := "u", status := .completed : Job }
        4).2.1.status = .completed) ∧
    (deleteJobVideo
        (deleteJobVideo (fun _ => false)
          { outputVideoPath := "output_j1.mp4", videoURL := "u", status := .completed : Job }
          4).1
        (deleteJobVideo (fun _ => false)
          { outputVideoPath := "output_j1.mp4", videoURL := "u", status := .completed : Job }
          4).2.1 4 =
      deleteJobVideo (fun _ => false)
        { outputVideoPath := "output_j1.mp4", videoURL := "u", status := .completed : Job }
        4) :=
  deleteJobVideo_idempotent (fun _ => false)
    { outputVideoPath := "output_j1.mp4", videoURL := "u", status := .completed : Job } 4

/-! ## Silence-bounded splitter: src/internal/audio/ffmpeg.go

Durations and timestamps are rationals; the Go code computes on float64 but
the decision rule is exact field arithmetic. The ffmpeg invocations (probe,
silencedetect, segment extraction, copy) are external effects; their results
(total duration, silence intervals, per-segment success) are inputs here. -/

/-- A detected silence span (ffmpeg.go `silenceInterval`); the Go field
`end` is a Lean keyword and is called `stop`. -/
structure SilenceInterval where
  start : ℚ
  stop : ℚ
deriving DecidableEq, Repr

/-- The middle of a silence interval, `(start + end) / 2`, used both as the
candidate reference in findBestSilence and as the actual cut point. -/
def SilenceInterval.middle (s : SilenceInterval) : ℚ := (s.start + s.stop) / 2

/-- Loop body of ffmpeg.go `findBestSilence`: skip midpoints below
`ideal - tolerance`, stop at the first midpoint above `ideal + tolerance`
(the silences are sorted by time), otherwise keep the strictly closest
midpoint seen so far. `best`/`bestDistance` mirror the Go locals, with
`bestDistance` initialised to the tolerance. -/
def findBestSilenceAux (idealPoint tolerance : ℚ) :
    List SilenceInterval → Option SilenceInterval → ℚ → Option SilenceInterval
  | [], best, _ => best
  | s :: rest, best, bestDistance =>
    if s.middle < idealPoint - tolerance then
      findBestSilenceAux idealPoint tolerance rest best bestDistance
    else if s.middle > idealPoint + tolerance then
      best
    else if |s.middle - idealPoint| < bestDistance then
      findBestSilenceAux idealPoint tolerance rest (some s) |s.middle - idealPoint|
    else
      findBestSilenceAux idealPoint tolerance rest best bestDistance

/-- ffmpeg.go `findBestSilence`. -/
def findBestSilence (silences : List SilenceInterval) (idealPoint tolerance : ℚ) :
    Option SilenceInterval :=
  findBestSilenceAux idealPoint tolerance silences none tolerance

/-- Loop of ffmpeg.go `calculateSplitPoints`, with the iteration count made
explicit as fuel; the Go locals `idealPoint = lastSplit + target` and
`splitPoint = bestSilence.middle` are inlined. Each iteration advances
`lastSplit` by at least 1 second
whenever the target is at least 1 second, so `splitFuel` below always
suffices; the Go loop would not terminate for a non-positive target, a case
the service never produces (ChunkTargetSec defaults to 45). Returns the
collected points together with the final `lastSplit`. -/
def calcSplitAux (silences : List SilenceInterval) (totalDuration target : ℚ) :
    Nat → ℚ → List ℚ → List ℚ × ℚ
  | 0, lastSplit, acc => (acc.reverse, lastSplit)
  | fuel + 1, lastSplit, acc =>
    if lastSplit < totalDuration - target / 2 then
      match findBestSilence silences (lastSplit + target) (target / 3) with
      | some bestSilence =>
        if bestSilence.middle > lastSplit + 1 then
          calcSplitAux silences totalDuration target fuel bestSilence.middle
            (bestSilence.middle :: acc)
        else
          if lastSplit + target < totalDuration then
            calcSplitAux silences totalDuration target fuel (lastSplit + target)
              ((lastSplit + target) :: acc)
          else
            calcSplitAux silences totalDuration target fuel (lastSplit + target) acc
      | none =>
        if lastSplit + target < totalDuration - 1 then
          calcSplitAux silences totalDuration target fuel (lastSplit + target)
            ((lastSplit + target) :: acc)
        else
          calcSplitAux silences totalDuration target fuel (lastSplit + target) acc
    else (acc.reverse, lastSplit)

/-- Fuel bound for the split loops: enough iterations for any advance of at
least 1 second per step across the whole recording. -/
def splitFuel (totalDuration : ℚ) : Nat := (⌈totalDuration⌉).toNat + 1

/-- Loop of ffmpeg.go `fixedSplitPoints`
(`for t := target; t < totalDuration-1; t += target`), fuelled like
`calcSplitAux`. -/
def fixedSplitAux (totalDuration target : ℚ) : Nat → ℚ → List ℚ → List ℚ
  | 0, _, acc => acc.reverse
  | fuel + 1, t, acc =>
    if t < totalDuration - 1 then
      fixedSplitAux totalDuration target fuel (t + target) (t :: acc)
    else acc.reverse

/-- ffmpeg.go `fixedSplitPoints`. -/
def fixedSplitPoints (totalDuration : ℚ) (targetSec : Int) : List ℚ :=
  fixedSplitAux totalDuration (targetSec : ℚ) (splitFuel totalDuration) (targetSec : ℚ) []

/-- ffmpeg.go `calculateSplitPoints`: fixed-stride fallback when no silences
were detected, otherwise the silence-guided loop from `lastSplit = 0`. -/
def calculateSplitPoints (silences : List SilenceInterval) (totalDuration : ℚ)
    (targetSec : Int) : List ℚ :=
  if silences = [] then fixedSplitPoints totalDuration targetSec
  else (calcSplitAux silences totalDuration (targetSec : ℚ) (splitFuel totalDuration) 0 []).1

/-- ffmpeg.go `extractChunks` boundary construction: consecutive
`[start, point)` spans, closed by a final span up to the total duration. -/
def segmentsFromPoints (totalDuration : ℚ) : ℚ → List ℚ → List (ℚ × ℚ)
  | start, [] => [(start, totalDuration)]
  | start, p :: rest => (start, p) :: segmentsFromPoints totalDuration p rest

/-- Outcome of ffmpeg.go `FFmpegSplitter.Split` up to the external ffmpeg
calls: whether silence detection ran at all, and the list of extracted
`[start, end)` spans. A single span `(0, duration)` is the whole-input copy
written to `chunk_000.wav`. -/
structure SplitPlan where
  usedSilenceDetection : Bool
  segments : List (ℚ × ℚ)
deriving DecidableEq, Repr

/-- ffmpeg.go `FFmpegSplitter.Split`, given the probed duration and the
parsed silence intervals: at most one segment when the recording fits the
target, otherwise silence detection followed by cut-point selection. -/
def splitPlan (duration : ℚ) (silences : List SilenceInterval) (targetSec : Int) :
    SplitPlan :=
  if duration ≤ (targetSec : ℚ) then
    { usedSilenceDetection := false, segments := [(0, duration)] }
  else
    { usedSilenceDetection := true
      segments := segmentsFromPoints duration 0 (calculateSplitPoints silences duration targetSec) }

/-- C5: when the probed duration is at most the target, Split copies the
whole recording into a single segment and performs no silence detection or
cutting; the result does not depend on the silence intervals at all. -/
theorem split_short_audio_single_segment (duration : ℚ) (silences : List SilenceInterval)
    (targetSec : Int) (h : duration ≤ (targetSec : ℚ)) :
    splitPlan duration silences targetSec =
      { usedSilenceDetection := false, segments := [(0, duration)] } := by
  unfold splitPlan
  rw [if_pos h]

/-- Closed instance of C5: a 30 second recording with a 45 second target. -/
theorem split_short_audio_single_segment_witness :
    splitPlan 30 [⟨10, 11⟩] 45 =
      { usedSilenceDetection := false, segments := [(0, 30)] } :=
  split_short_audio_single_segment 30 [⟨10, 11⟩] 45 (by norm_num)

/-! ### Chunk extraction cleanup (ffmpeg.go `extractChunks`)

The filesystem is indexed by segment number: chunk file names
`chunk_%03d.wav` are distinct per index, so `fs i` is whether the chunk file
of segment `i` exists. `extractOk i` is whether the ffmpeg extraction of
segment `i` succeeds; a failed extraction creates no chunk entry. -/

/-- Loop of ffmpeg.go `extractChunks`: extract each segment in order; on the
first failure remove every chunk file created by this call, then return the
failing segment index as the error. -/
def extractChunksAux (extractOk : Nat → Bool) :
    List (ℚ × ℚ) → Nat → (Nat → Bool) → List Nat → (Nat → Bool) × Except Nat (List Nat)
  | [], _, fs, chunks => (fs, .ok chunks.reverse)
  | _seg :: rest, i, fs, chunks =>
    if extractOk i then
      extractChunksAux extractOk rest (i + 1)
        (fun k => if k = i then true else fs k) (i :: chunks)
    else
      (fun k => if k ∈ chunks then false else fs k, .error i)

/-- ffmpeg.go `extractChunks` over the segment list produced by
`segmentsFromPoints`. -/
def extractChunks (fs : Nat → Bool) (segments : List (ℚ × ℚ)) (extractOk : Nat → Bool) :
    (Nat → Bool) × Except Nat (List Nat) :=
  extractChunksAux extractOk segments 0 fs []

theorem extractChunksAux_cleanup (extractOk : Nat → Bool) :
    ∀ (segs : List (ℚ × ℚ)) (i0 : Nat) (fs : Nat → Bool) (chunks : List Nat) (ifail : Nat),
      (∀ k, k ∈ chunks ↔ k < i0) →
      i0 ≤ ifail → ifail < i0 + segs.length →
      (∀ k, i0 ≤ k → k < ifail → extractOk k = true) →
      extractOk ifail = false →
      (extractChunksAux extractOk segs i0 fs chunks).2 = .error ifail ∧
      (∀ k, k < ifail → (extractChunksAux extractOk segs i0 fs chunks).1 k = false) ∧
      (∀ k, ifail ≤ k → (extractChunksAux extractOk segs i0 fs chunks).1 k = fs k) := by
  intro segs
  induction segs with
  | nil =>
    intro i0 fs chunks ifail _ h1 h2 _ _
    simp at h2
    omega
  | cons seg rest ih =>
    intro i0 fs chunks ifail hmem h1 h2 h3 h4
    by_cases hi : ifail = i0
    · subst hi
      unfold extractChunksAux
      rw [if_neg (by simp [h4])]
      refine ⟨rfl, ?_, ?_⟩
      · intro k hk
        have hin : k ∈ chunks := (hmem k).mpr hk
        simp [hin]
      · intro k hk
        have hout : k ∉ chunks := by
          intro hc
          have := (hmem k).mp hc
          omega
        simp [hout]
    · have hlt : i0 < ifail := by omega
      have hok : extractOk i0 = true := h3 i0 (le_refl _) hlt
      unfold extractChunksAux
      rw [if_pos hok]
      obtain ⟨ha, hb, hc⟩ := ih (i0 + 1) (fun k => if k = i0 then true else fs k)
        (i0 :: chunks) ifail
        (by
          intro k
          constructor
          · intro hk
            rcases List.mem_cons.mp hk with hk1 | hk1
            · omega
            · have := (hmem k).mp hk1
              omega
          · intro hk
            by_cases hke : k = i0
            · simp [hke]
            · have : k < i0 := by omega
              exact List.mem_cons_of_mem _ ((hmem k).mpr this))
        (by omega) (by simp at h2; omega) (fun k hk1 hk2 => h3 k (by omega) hk2) h4
      refine ⟨ha, hb, ?_⟩
      intro k hk
      rw [hc k hk, if_neg (by omega)]

/-- C7: if the extraction of segment `ifail` fails inside the chunk loop of
Split, every segment file produced earlier in the same call is deleted before
the error is returned, and paths at or beyond the failing index keep their
prior state, so a failing Split leaves no partial set of segment files. -/
theorem extractChunks_cleanup_on_failure (fs : Nat → Bool) (segments : List (ℚ × ℚ))
    (extractOk : Nat → Bool) (ifail : Nat)
    (hlen : ifail < segments.length)
    (hpre : ∀ k, k < ifail → extractOk k = true)
    (hfail : extractOk ifail = false) :
    (extractChunks fs segments extractOk).2 = .error ifail ∧
    (∀ k, k < ifail → (extractChunks fs segments extractOk).1 k = false) ∧
    (∀ k, ifail ≤ k → (extractChunks fs segments extractOk).1 k = fs k) := by
  unfold extractChunks
  exact extractChunksAux_cleanup extractOk segments 0 fs [] ifail
    (by intro k; simp) (Nat.zero_le _) (by omega)
    (fun k _ hk => hpre k hk) hfail

/-- Closed instance of C7: three segments, the third extraction fails; the
two chunk files created earlier are removed and untouched paths keep their
prior state. -/
theorem extractChunks_cleanup_on_failure_witness :
    ((extractChunks (fun _ => false) [(0, 10), (10, 20), (20, 30)]
        (fun k => decide (k < 2))).2 = .error 2) ∧
    (∀ k, k < 2 → (extractChunks (fun _ => false) [(0, 10), (10, 20), (20, 30)]
        (fun k => decide (k < 2))).1 k = false) ∧
    (∀ k, 2 ≤ k → (extractChunks (fun _ => false) [(0, 10), (10, 20), (20, 30)]
        (fun k => decide (k < 2))).1 k = (fun _ => false) k) :=
  extractChunks_cleanup_on_failure (fun _ => false) [(0, 10), (10, 20), (20, 30)]
    (fun k => decide (k < 2)) 2 (by decide)
    (by intro k hk; simp [hk]) (by decide)

/-! ### The cut-point selection rule (C6) -/

/-- Invariant proof for the findBestSilence scan: on a list sorted by
midpoint, a returned interval is a member, lies strictly within the running
best distance, and no midpoint in the list within tolerance is strictly
closer to the ideal point. -/
theorem findBestSilenceAux_spec (ideal tol : ℚ) :
    ∀ (l : List SilenceInterval) (best : Option SilenceInterval) (bd : ℚ),
      l.Pairwise (fun a b => a.middle ≤ b.middle) →
      bd ≤ tol →
      (∀ b, best = some b → |b.middle - ideal| = bd) →
      ∀ s, findBestSilenceAux ideal tol l best bd = some s →
        (s ∈ l ∨ best = some s) ∧
        |s.middle - ideal| ≤ bd ∧
        (best = none → |s.middle - ideal| < bd) ∧
        (∀ x ∈ l, |x.middle - ideal| ≤ tol → |s.middle - ideal| ≤ |x.middle - ideal|) := by
  intro l
  induction l with
  | nil =>
    intro best bd _ _ hinv s hr
    simp only [findBestSilenceAux] at hr
    refine ⟨Or.inr hr, le_of_eq (hinv s hr), ?_, by simp⟩
    intro hb
    rw [hb] at hr
    cases hr
  | cons s0 rest ih =>
    intro best bd hpair hbd hinv s hr
    rw [List.pairwise_cons] at hpair
    obtain ⟨hp, hrest⟩ := hpair
    unfold findBestSilenceAux at hr
    by_cases h1 : s0.middle < ideal - tol
    · rw [if_pos h1] at hr
      obtain ⟨g1, g2, g2n, g3⟩ := ih best bd hrest hbd hinv s hr
      refine ⟨?_, g2, g2n, ?_⟩
      · rcases g1 with g | g
        · exact Or.inl (List.mem_cons_of_mem _ g)
        · exact Or.inr g
      · intro x hx hxtol
        rcases List.mem_cons.mp hx with he | hxr
        · exfalso
          subst he
          have habs : tol < |x.middle - ideal| := by
            have h2 : tol < ideal - x.middle := by linarith
            calc tol < ideal - x.middle := h2
              _ ≤ |ideal - x.middle| := le_abs_self _
              _ = |x.middle - ideal| := abs_sub_comm _ _
          linarith
        · exact g3 x hxr hxtol
    · by_cases h2 : s0.middle > ideal + tol
      · rw [if_neg h1, if_pos h2] at hr
        have hd : |s.middle - ideal| = bd := hinv s hr
        refine ⟨Or.inr hr, le_of_eq hd, ?_, ?_⟩
        · intro hb
          rw [hb] at hr
          cases hr
        · intro x hx hxtol
          exfalso
          have hxm : ideal + tol < x.middle := by
            rcases List.mem_cons.mp hx with he | hxr
            · subst he; exact h2
            · exact lt_of_lt_of_le h2 (hp x hxr)
          have habs : tol < |x.middle - ideal| := by
            calc tol < x.middle - ideal := by linarith
              _ ≤ |x.middle - ideal| := le_abs_self _
          linarith
      · by_cases h3 : |s0.middle - ideal| < bd
        · rw [if_neg h1, if_neg h2, if_pos h3] at hr
          obtain ⟨g1, g2, _, g3⟩ := ih (some s0) |s0.middle - ideal| hrest
            (le_trans (le_of_lt h3) hbd)
            (by intro b hb; cases hb; rfl) s hr
          refine ⟨?_, le_trans g2 (le_of_lt h3), fun _ => lt_of_le_of_lt g2 h3, ?_⟩
          · rcases g1 with g | g
            · exact Or.inl (List.mem_cons_of_mem _ g)
            · cases g
              exact Or.inl (List.mem_cons_self _ _)
          · intro x hx hxtol
            rcases List.mem_cons.mp hx with he | hxr
            · subst he
              exact g2
            · exact g3 x hxr hxtol
        · rw [if_neg h1, if_neg h2, if_neg h3] at hr
          obtain ⟨g1, g2, g2n, g3⟩ := ih best bd hrest hbd hinv s hr
          refine ⟨?_, g2, g2n, ?_⟩
          · rcases g1 with g | g
            · exact Or.inl (List.mem_cons_of_mem _ g)
            · exact Or.inr g
          · intro x hx hxtol
            rcases List.mem_cons.mp hx with he | hxr
            · subst he
              have : bd ≤ |x.middle - ideal| := le_of_not_lt h3
              linarith [g2]
            · exact g3 x hxr hxtol

/-- The top-level selection rule: a chosen silence is in the list, its
midpoint is strictly within the tolerance of the ideal point, and it is at
least as close as any other in-tolerance silence. -/
theorem findBestSilence_spec (silences : List SilenceInterval) (ideal tol : ℚ)
    (hpair : silences.Pairwise (fun a b => a.middle ≤ b.middle))
    (s : SilenceInterval) (hr : findBestSilence silences ideal tol = some s) :
    s ∈ silences ∧ |s.middle - ideal| < tol ∧
    (∀ x ∈ silences, |x.middle - ideal| ≤ tol →
      |s.middle - ideal| ≤ |x.middle - ideal|) := by
  obtain ⟨g1, _, g2n, g3⟩ := findBestSilenceAux_spec ideal tol silences none tol hpair
    (le_refl _) (by intro b hb; cases hb) s hr
  refine ⟨?_, g2n rfl, g3⟩
  rcases g1 with g | g
  · exact g
  · cases g

/-- The per-iteration rule a cut point satisfies as the code implements it:
from some `lastCut` still inside the loop, the point is the midpoint of the
findBestSilence choice when that midpoint clears `lastCut + 1`; otherwise it
is exactly the ideal point, guarded by `ideal < duration` when a too-close
silence was found and by `ideal < duration - 1` when none was found. -/
def cutPointOk (silences : List SilenceInterval) (totalDuration target p : ℚ) : Prop :=
  ∃ lastCut, lastCut < totalDuration - target / 2 ∧
    ((∃ s, findBestSilence silences (lastCut + target) (target / 3) = some s ∧
        ((p = s.middle ∧ p > lastCut + 1) ∨
          (s.middle ≤ lastCut + 1 ∧ p = lastCut + target ∧ p < totalDuration))) ∨
      (findBestSilence silences (lastCut + target) (target / 3) = none ∧
        p = lastCut + target ∧ p < totalDuration - 1))

theorem calcSplitAux_points (silences : List SilenceInterval) (D target : ℚ) :
    ∀ (fuel : Nat) (lastSplit : ℚ) (acc : List ℚ),
      (∀ p ∈ acc, cutPointOk silences D target p) →
      ∀ p ∈ (calcSplitAux silences D target fuel lastSplit acc).1,
        cutPointOk silences D target p := by
  intro fuel
  induction fuel with
  | zero =>
    intro lastSplit acc hacc p hp
    simp only [calcSplitAux, List.mem_reverse] at hp
    exact hacc p hp
  | succ fuel ih =>
    intro lastSplit acc hacc p hp
    unfold calcSplitAux at hp
    by_cases hg : lastSplit < D - target / 2
    · rw [if_pos hg] at hp
      cases hfb : findBestSilence silences (lastSplit + target) (target / 3) with
      | some bs =>
        simp only [hfb] at hp
        by_cases hsp : bs.middle > lastSplit + 1
        · rw [if_pos hsp] at hp
          refine ih bs.middle (bs.middle :: acc) ?_ p hp
          intro q hq
          rcases List.mem_cons.mp hq with he | hqa
          · subst he
            exact ⟨lastSplit, hg, Or.inl ⟨bs, hfb, Or.inl ⟨rfl, hsp⟩⟩⟩
          · exact hacc q hqa
        · rw [if_neg hsp] at hp
          by_cases hid : lastSplit + target < D
          · rw [if_pos hid] at hp
            refine ih (lastSplit + target) ((lastSplit + target) :: acc) ?_ p hp
            intro q hq
            rcases List.mem_cons.mp hq with he | hqa
            · subst he
              exact ⟨lastSplit, hg, Or.inl ⟨bs, hfb, Or.inr ⟨le_of_not_lt hsp, rfl, hid⟩⟩⟩
            · exact hacc q hqa
          · rw [if_neg hid] at hp
            exact ih (lastSplit + target) acc hacc p hp
      | none =>
        simp only [hfb] at hp
        by_cases hid : lastSplit + target < D - 1
        · rw [if_pos hid] at hp
          refine ih (lastSplit + target) ((lastSplit + target) :: acc) ?_ p hp
          intro q hq
          rcases List.mem_cons.mp hq with he | hqa
          · subst he
            exact ⟨lastSplit, hg, Or.inr ⟨hfb, rfl, hid⟩⟩
          · exact hacc q hqa
        · rw [if_neg hid] at hp
          exact ih (lastSplit + target) acc hacc p hp
    · rw [if_neg hg] at hp
      simp only [List.mem_reverse] at hp
      exact hacc p hp

theorem calcSplitAux_final (silences : List SilenceInterval) (D target : ℚ)
    (htarget : 1 ≤ target) :
    ∀ (fuel : Nat) (lastSplit : ℚ) (acc : List ℚ),
      (⌈D - target / 2 - lastSplit⌉).toNat ≤ fuel →
      ¬ ((calcSplitAux silences D target fuel lastSplit acc).2 < D - target / 2) := by
  intro fuel
  induction fuel with
  | zero =>
    intro lastSplit acc hfuel
    simp only [calcSplitAux]
    intro hlt
    have h1 : (0 : ℚ) < D - target / 2 - lastSplit := by linarith
    have h2 : (0 : ℤ) < ⌈D - target / 2 - lastSplit⌉ := Int.ceil_pos.mpr h1
    omega
  | succ fuel ih =>
    intro lastSplit acc hfuel
    unfold calcSplitAux
    by_cases hg : lastSplit < D - target / 2
    · rw [if_pos hg]
      have hstep : ∀ lastSplit2 : ℚ, lastSplit + 1 ≤ lastSplit2 →
          (⌈D - target / 2 - lastSplit2⌉).toNat ≤ fuel := by
        intro ls2 hls2
        have hle : D - target / 2 - ls2 ≤ D - target / 2 - lastSplit - 1 := by linarith
        have hc1 : ⌈D - target / 2 - ls2⌉ ≤ ⌈D - target / 2 - lastSplit - 1⌉ :=
          Int.ceil_le_ceil hle
        have hc2 : ⌈D - target / 2 - lastSplit - ((1 : ℤ) : ℚ)⌉ =
            ⌈D - target / 2 - lastSplit⌉ - 1 := Int.ceil_sub_int _ 1
        have hc2q : ⌈D - target / 2 - lastSplit - 1⌉ =
            ⌈D - target / 2 - lastSplit⌉ - 1 := by
          simpa using hc2
        have hpos : (0 : ℤ) < ⌈D - target / 2 - lastSplit⌉ :=
          Int.ceil_pos.mpr (by linarith)
        omega
      cases hfb : findBestSilence silences (lastSplit + target) (target / 3) with
      | some bs =>
        simp only [hfb]
        by_cases hsp : bs.middle > lastSplit + 1
        · rw [if_pos hsp]
          exact ih bs.middle _ (hstep _ (le_of_lt hsp))
        · rw [if_neg hsp]
          by_cases hid : lastSplit + target < D
          · rw [if_pos hid]
            exact ih (lastSplit + target) _ (hstep _ (by linarith))
          · rw [if_neg hid]
            exact ih (lastSplit + target) _ (hstep _ (by linarith))
      | none =>
        simp only [hfb]
        by_cases hid : lastSplit + target < D - 1
        · rw [if_pos hid]
          exact ih (lastSplit + target) _ (hstep _ (by linarith))
        · rw [if_neg hid]
          exact ih (lastSplit + target) _ (hstep _ (by linarith))
    · rw [if_neg hg]
      exact hg

/-- C6 (amended): on a non-empty sorted silence list with an integral target
of at least one second and a longer duration, (i) findBestSilence picks a
member silence whose midpoint is strictly within targetSeconds/3 of the ideal
point and at least as close as any other in-tolerance silence; (ii) every cut
point emitted by calculateSplitPoints is, for its iteration lastCut, either
the midpoint of that choice when it exceeds lastCut + 1, or exactly the ideal
point, where the guard is ideal < duration when a too-close silence was found
and ideal < duration - 1 when no silence qualified; and (iii) the loop runs
until lastCut is at least duration - targetSeconds/2. -/
theorem calculateSplitPoints_cut_rule (silences : List SilenceInterval) (D : ℚ)
    (targetSec : Int) (hne : silences ≠ [])
    (hpair : silences.Pairwise (fun a b => a.middle ≤ b.middle))
    (htarget : 1 ≤ targetSec) (_hdur : (targetSec : ℚ) < D) :
    (∀ ideal s, findBestSilence silences ideal ((targetSec : ℚ) / 3) = some s →
        s ∈ silences ∧ |s.middle - ideal| < (targetSec : ℚ) / 3 ∧
        ∀ x ∈ silences, |x.middle - ideal| ≤ (targetSec : ℚ) / 3 →
          |s.middle - ideal| ≤ |x.middle - ideal|) ∧
    (∀ p ∈ calculateSplitPoints silences D targetSec,
        cutPointOk silences D (targetSec : ℚ) p) ∧
    (D - (targetSec : ℚ) / 2 ≤
        (calcSplitAux silences D (targetSec : ℚ) (splitFuel D) 0 []).2) := by
  have htq : (1 : ℚ) ≤ (targetSec : ℚ) := by exact_mod_cast htarget
  refine ⟨?_, ?_, ?_⟩
  · intro ideal s hr
    exact findBestSilence_spec silences ideal _ hpair s hr
  · intro p hp
    unfold calculateSplitPoints at hp
    rw [if_neg hne] at hp
    exact calcSplitAux_points silences D _ (splitFuel D) 0 [] (by simp) p hp
  · have hfuel : (⌈D - (targetSec : ℚ) / 2 - 0⌉).toNat ≤ splitFuel D := by
      have hle : D - (targetSec : ℚ) / 2 - 0 ≤ D := by linarith
      have hc : ⌈D - (targetSec : ℚ) / 2 - 0⌉ ≤ ⌈D⌉ := Int.ceil_le_ceil hle
      unfold splitFuel
      omega
    have := calcSplitAux_final silences D (targetSec : ℚ) htq (splitFuel D) 0 [] hfuel
    linarith [not_lt.mp this]

/-- Closed instance of the amended C6: the spec §8 scenario, a 130 second
recording with target 45 and silences at 44 to 45 and 89 to 90 seconds. -/
theorem calculateSplitPoints_cut_rule_witness :
    (∀ ideal s,
        findBestSilence [⟨44, 45⟩, ⟨89, 90⟩] ideal (((45 : Int) : ℚ) / 3) = some s →
        s ∈ [⟨44, 45⟩, ⟨89, 90⟩] ∧ |s.middle - ideal| < ((45 : Int) : ℚ) / 3 ∧
        ∀ x ∈ [(⟨44, 45⟩ : SilenceInterval), ⟨89, 90⟩],
          |x.middle - ideal| ≤ ((45 : Int) : ℚ) / 3 →
          |s.middle - ideal| ≤ |x.middle - ideal|) ∧
    (∀ p ∈ calculateSplitPoints [⟨44, 45⟩, ⟨89, 90⟩] 130 45,
        cutPointOk [⟨44, 45⟩, ⟨89, 90⟩] 130 ((45 : Int) : ℚ) p) ∧
    (130 - ((45 : Int) : ℚ) / 2 ≤
        (calcSplitAux [⟨44, 45⟩, ⟨89, 90⟩] 130 ((45 : Int) : ℚ) (splitFuel 130) 0 []).2) :=
  calculateSplitPoints_cut_rule [⟨44, 45⟩, ⟨89, 90⟩] 130 45 (by decide)
    (by norm_num [List.pairwise_cons, SilenceInterval.middle]) (by norm_num)
    (by norm_num)

/-- C6 counterexample to the literal claim: with one silence from 0.8s to 1s,
duration 1.5s and target 1s, the loop emits the cut 1, which is not the
midpoint of any silence in the list (the midpoint is 0.9) and is an
ideal-point cut that is not more than one second before the end of the
recording. -/
theorem calculateSplitPoints_end_guard_counterexample :
    (calculateSplitPoints [⟨4/5, 1⟩] (3/2) 1 = [1]) ∧
    (∀ s ∈ [(⟨4/5, 1⟩ : SilenceInterval)], SilenceInterval.middle s ≠ 1) ∧
    ¬ ((1 : ℚ) < 3/2 - 1) := by
  refine ⟨?_, ?_, by norm_num⟩
  · have hceil : (⌈(3/2 : ℚ)⌉).toNat = 2 := by
      have h2 : ⌈(3/2 : ℚ)⌉ = 2 := by
        rw [Int.ceil_eq_iff]
        norm_num
      rw [h2]
      rfl
    have hfuel : splitFuel (3/2 : ℚ) = 3 := by
      unfold splitFuel
      rw [hceil]
    have habs : |(1/10 : ℚ)| = 1/10 := abs_of_nonneg (by norm_num)
    norm_num [calculateSplitPoints, hfuel, hceil, calcSplitAux, findBestSilence,
      findBestSilenceAux, SilenceInterval.middle, habs]
  · intro s hs
    simp only [List.mem_singleton] at hs
    subst hs
    norm_num [SilenceInterval.middle]

/-! ## Orchestrator run: src/internal/job/service.go

`processJob`, `processChunksSequential`, `processChunkWithGenerator` and
`pollForResultWithGenerator`, with every external call (storage, media,
splitter, provider) replaced by an oracle value. Repository Save is the
in-memory store (memory.go), which never fails; each Save call appends a
snapshot of the job to the `saves` trace. Provider interactions are traced
as `PCall` events. -/

/-- generator.go `Status`: the normalized provider status vocabulary. -/
inductive GenStatus where
  | pending
  | inQueue
  | running
  | completed
  | failed
  | cancelled
  | timedOut
deriving DecidableEq, Repr

/-- generator.go `PollResult`. -/
structure GenPollResult where
  status : GenStatus
  videoBase64 : String := ""
  videoURL : String := ""
  error : String := ""
deriving DecidableEq, Repr

/-- One tick of the poll loop: either `gen.Poll` returned a transport error
(logged and retried on the next tick) or a result. -/
inductive PollStep where
  | transportError (msg : String)
  | response (r : GenPollResult)
deriving DecidableEq, Repr

/-- service.go `pollForResultWithGenerator`: walk the observed poll ticks,
skipping transport errors, looping on non-terminal statuses, returning the
result on COMPLETED and a distinct error per terminal failure status. The Go
loop only ends on a terminal status or on context cancellation; an exhausted
tick list is the run cancellation observed inside the loop. -/
def pollForResultWithGenerator : List PollStep → Except String GenPollResult
  | [] => .error ("context cancelled: " ++ "context canceled")
  | .transportError _ :: rest => pollForResultWithGenerator rest
  | .response r :: rest =>
    match r.status with
    | .completed => .ok r
    | .failed =>
      if r.error ≠ "" then .error ("provider job failed" ++ ": " ++ r.error)
      else .error "provider job failed"
    | .cancelled => .error "provider job cancelled"
    | .timedOut => .error "provider job timed out"
    | _ => pollForResultWithGenerator rest

/-- Oracle for the external effects of one chunk: audio fileToBase64, the
provider Submit, the observed poll ticks, the base64 decode of an inline
video, the SaveTemp of the decoded bytes, and DownloadOutput. -/
structure ChunkOracle where
  encodeAudio : Except String String
  submit : Except String String
  pollSteps : List PollStep
  decodeVideo : Except String Unit
  saveVideo : Except String String
  download : Except String Unit
deriving Repr

/-- A traced provider interaction of the run. -/
inductive PCall where
  | submit (idx : Nat)
  | poll (idx : Nat)
  | download (idx : Nat)
deriving DecidableEq, Repr

/-- The chunk index of a provider interaction. -/
def PCall.idx : PCall → Nat
  | .submit i => i
  | .poll i => i
  | .download i => i

/-- The direct locked write `job.Chunks[idx].RunPodJobID = id;
job.Chunks[idx].StartedAt = now` of service.go, guarded by
`idx < len(job.Chunks)`. -/
def setChunkProviderID (j : Job) (idx : Nat) (providerJobID : String) (now : Nat) : Job :=
  if idx < j.chunks.length then
    { j with chunks := modifyNth (fun c =>
        { c with runPodJobID := providerJobID, startedAt := now }) idx j.chunks }
  else j

/-- The direct locked write marking chunk `idx` COMPLETED with its output
path, guarded by `idx < len(job.Chunks)`. -/
def setChunkCompleted (j : Job) (idx : Nat) (videoPath : String) (now : Nat) : Job :=
  if idx < j.chunks.length then
    { j with chunks := modifyNth (fun c =>
        { c with status := .completed, outputPath := videoPath, completedAt := now }) idx j.chunks }
  else j

/-- service.go `processChunkWithGenerator`: mark the chunk PROCESSING, encode
the audio, submit, poll, then materialize the video (decode inline base64 and
SaveTemp, or DownloadOutput from a URL, else the no-output error); every
failure marks the chunk FAILED with the raw error message and returns the
wrapped error. Returns the updated job, the provider interactions, and the
video path or the error. -/
def processChunkWithGenerator (j : Job) (idx : Nat) (o : ChunkOracle) (now : Nat) :
    Job × List PCall × Except String String :=
  match o.encodeAudio with
  | .error e =>
    (updateChunkStatus (updateChunkStatus j idx .processing "" now) idx .failed e now,
      [], .error ("failed to encode audio: " ++ e))
  | .ok _audioB64 =>
    match o.submit with
    | .error e =>
      (updateChunkStatus (updateChunkStatus j idx .processing "" now) idx .failed e now,
        [.submit idx], .error ("failed to submit to provider: " ++ e))
    | .ok providerJobID =>
      match pollForResultWithGenerator o.pollSteps with
      | .error e =>
        (updateChunkStatus
            (setChunkProviderID (updateChunkStatus j idx .processing "" now) idx
              providerJobID now) idx .failed e now,
          [.submit idx, .poll idx], .error ("failed to poll provider: " ++ e))
      | .ok pollResult =>
        if pollResult.videoBase64 ≠ "" then
          match o.decodeVideo with
          | .error e =>
            (updateChunkStatus
                (setChunkProviderID (updateChunkStatus j idx .processing "" now) idx
                  providerJobID now) idx .failed e now,
              [.submit idx, .poll idx], .error ("failed to decode video: " ++ e))
          | .ok _ =>
            match o.saveVideo with
            | .error e =>
              (updateChunkStatus
                  (setChunkProviderID (updateChunkStatus j idx .processing "" now) idx
                    providerJobID now) idx .failed e now,
                [.submit idx, .poll idx], .error ("failed to save video: " ++ e))
            | .ok videoPath =>
              (setChunkCompleted
                  (setChunkProviderID (updateChunkStatus j idx .processing "" now) idx
                    providerJobID now) idx videoPath now,
                [.submit idx, .poll idx], .ok videoPath)
        else if pollResult.videoURL ≠ "" then
          match o.download with
          | .error e =>
            (updateChunkStatus
                (setChunkProviderID (updateChunkStatus j idx .processing "" now) idx
                  providerJobID now) idx .failed e now,
              [.submit idx, .poll idx, .download idx],
              .error ("failed to download video: " ++ e))
          | .ok _ =>
            (setChunkCompleted
                (setChunkProviderID (updateChunkStatus j idx .processing "" now) idx
                  providerJobID now) idx ("chunk_" ++ j.id ++ "_" ++ toString idx ++ ".mp4") now,
              [.submit idx, .poll idx, .download idx],
              .ok ("chunk_" ++ j.id ++ "_" ++ toString idx ++ ".mp4"))
        else
          (updateChunkStatus
              (setChunkProviderID (updateChunkStatus j idx .processing "" now) idx
                providerJobID now) idx .failed "no video output from provider" now,
            [.submit idx, .poll idx], .error "no video output from provider")

/-- Whether a chunk oracle drives `processChunkWithGenerator` to success;
this depends only on the oracle, not on the job. -/
def chunkOk (o : ChunkOracle) : Bool :=
  match o.encodeAudio with
  | .error _ => false
  | .ok _ =>
    match o.submit with
    | .error _ => false
    | .ok _ =>
      match pollForResultWithGenerator o.pollSteps with
      | .error _ => false
      | .ok pollResult =>
        if pollResult.videoBase64 ≠ "" then
          (match o.decodeVideo with
            | .error _ => false
            | .ok _ => match o.saveVideo with
              | .error _ => false
              | .ok _ => true)
        else if pollResult.videoURL ≠ "" then
          (match o.download with
            | .error _ => false
            | .ok _ => true)
        else false

/-- All error payloads a chunk oracle can produce are non-empty; Go errors
carry non-empty messages in this codebase (static `errors.New` texts and
wrapped diagnostics). -/
def ChunkOracle.errorsNonEmpty (o : ChunkOracle) : Prop :=
  (∀ e, o.encodeAudio = .error e → e ≠ "") ∧
  (∀ e, o.submit = .error e → e ≠ "") ∧
  (∀ e, o.decodeVideo = .error e → e ≠ "") ∧
  (∀ e, o.saveVideo = .error e → e ≠ "") ∧
  (∀ e, o.download = .error e → e ≠ "")

/-- Result of the sequential chunk loop, with the traces accumulated so far. -/
structure SeqResult where
  job : Job
  calls : List PCall
  saves : List Job
  progressWrites : List Int
  result : Except String (List String)

/-- service.go `processChunksSequential`: one chunk at a time with the same
seed image; the context is checked before each chunk; on the first chunk
error the loop stops with the wrapped `chunk %d failed` error; after each
successful chunk the progress `((i+1)*90)/len(audioChunks)` is written and
the job saved (a Save failure is only logged, and the memory store never
fails). -/
def processChunksSeqAux (oracles : Nat → ChunkOracle) (cancelBefore : Nat → Bool)
    (n now : Nat) :
    List String → Nat → Job → List PCall → List Job → List Int → List String → SeqResult
  | [], _i, j, calls, saves, writes, videoPaths =>
    { job := j, calls := calls, saves := saves, progressWrites := writes,
      result := .ok videoPaths.reverse }
  | _chunkPath :: rest, i, j, calls, saves, writes, videoPaths =>
    if cancelBefore i then
      { job := j, calls := calls, saves := saves, progressWrites := writes,
        result := .error ("context cancelled: " ++ "context canceled") }
    else
      match processChunkWithGenerator j i (oracles i) now with
      | (j1, cs, .error e) =>
        { job := j1, calls := calls ++ cs, saves := saves, progressWrites := writes,
          result := .error ("chunk " ++ toString i ++ " failed: " ++ e) }
      | (j1, cs, .ok videoPath) =>
        processChunksSeqAux oracles cancelBefore n now rest (i + 1)
          (j1.updateProgress (((i + 1) * 90 / n : Nat) : Int) now)
          (calls ++ cs)
          (saves ++ [j1.updateProgress (((i + 1) * 90 / n : Nat) : Int) now])
          (writes ++ [(((i + 1) * 90 / n : Nat) : Int)])
          (videoPath :: videoPaths)

/-- Oracle for the pre-chunk and post-chunk external effects of one run. -/
structure RunOracle where
  getGen : Except String Unit
  saveImage : Except String String
  saveAudio : Except String String
  resize : Except String Unit
  encodeImage : Except String String
  split : Except String (List String)
  chunkOracles : Nat → ChunkOracle
  cancelBefore : Nat → Bool
  join : Except String Unit
  openOutput : Except String Unit
  upload : Except String String

/-- The fields of service.go `ProcessVideoInput` a run branches on. -/
structure PVInput where
  width : Int := 0
  height : Int := 0
  pushToS3 : Bool := false
  dryRun : Bool := false
deriving DecidableEq, Repr

/-- service.go `ProcessVideoOutput`. -/
structure PVOutput where
  jobID : String
  status : Status
  videoPath : String := ""
  videoURL : String := ""
  error : String := ""
deriving DecidableEq, Repr

/-- Result of one orchestration run: the final in-memory job, the trace of
repository saves, the provider interactions, the values written by
UpdateProgress, and the Go return value (the `.error` case is processJob
returning a non-nil error to its caller). -/
structure RunResult where
  job : Job
  saves : List Job
  calls : List PCall
  progressWrites : List Int
  result : Except String PVOutput

/-- service.go `failJob`: attempt Fail (a transition error is only logged),
save, and return an output carrying the error message. -/
def failJob (j : Job) (errMsg : String) (now : Nat) (saves : List Job)
    (calls : List PCall) (writes : List Int) : RunResult :=
  { job := (j.fail errMsg now).1
    saves := saves ++ [(j.fail errMsg now).1]
    calls := calls
    progressWrites := writes
    result := .ok ⟨(j.fail errMsg now).1.id, (j.fail errMsg now).1.status, "", "", errMsg⟩ }

/-- The `for i, chunkPath := range audioChunks` loop of processJob building
the chunk records, with the running index explicit. -/
def buildChunksAux (jobID : String) : Nat → List String → List Chunk
  | _, [] => []
  | i, chunkPath :: rest =>
    { id := jobID ++ "-chunk-" ++ toString i
      index := (i : Int)
      status := .pending
      inputPath := chunkPath } :: buildChunksAux jobID (i + 1) rest

/-- The chunk records built by processJob from the splitter output: id
`<jobID>-chunk-<i>`, index `i`, PENDING, input path from the splitter. -/
def buildChunks (jobID : String) (audioChunks : List String) : List Chunk :=
  buildChunksAux jobID 0 audioChunks

/-- Completion tail of service.go `processJob` (step 8): SetOutput,
UpdateProgress(100), Complete, final Save. A Complete error is returned to
the caller without a further save. -/
def completeRun (j : Job) (outputVideoPath videoURL : String) (now : Nat)
    (saves : List Job) (calls : List PCall) (writes : List Int) : RunResult :=
  match ((j.setOutput outputVideoPath videoURL now).updateProgress 100 now).complete now with
  | (j2, some _) =>
    { job := j2, saves := saves, calls := calls, progressWrites := writes ++ [100],
      result := .error ("complete job: " ++ "invalid state transition") }
  | (j2, none) =>
    { job := j2, saves := saves ++ [j2], calls := calls, progressWrites := writes ++ [100],
      result := .ok ⟨j2.id, j2.status, outputVideoPath, videoURL, ""⟩ }

/-- Chunk phase and completion of `processJob`, split out for readability:
takes the job with its PENDING chunks set, the pre-chunk save trace, and the
splitter output. -/
def processJobChunksPhase (j4 : Job) (input : PVInput) (o : RunOracle) (now : Nat)
    (j1 : Job) (audioChunks : List String) : RunResult :=
  if input.dryRun then
    match (j4.updateProgress 100 now).complete now with
    | (j6, some _) =>
      { job := j6, saves := [j1, j4], calls := [], progressWrites := [100],
        result := .error ("complete job: " ++ "invalid state transition") }
    | (j6, none) =>
      { job := j6, saves := [j1, j4, j6], calls := [], progressWrites := [100],
        result := .ok { jobID := j6.id, status := j6.status } }
  else
    match processChunksSeqAux o.chunkOracles o.cancelBefore audioChunks.length now
      audioChunks 0 j4 [] [] [] [] with
    | { job := j5, calls := calls, saves := chunkSaves, progressWrites := writes,
        result := .error e } =>
      failJob j5 e now ([j1, j4] ++ chunkSaves) calls writes
    | { job := j5, calls := calls, saves := chunkSaves, progressWrites := writes,
        result := .ok _videoPaths } =>
      match o.join with
      | .error e =>
        failJob j5 ("failed to join videos: " ++ e) now ([j1, j4] ++ chunkSaves) calls writes
      | .ok _ =>
        if input.pushToS3 then
          match o.openOutput with
          | .error e =>
            failJob j5 ("failed to open output video: " ++ e) now
              ([j1, j4] ++ chunkSaves) calls writes
          | .ok _ =>
            match o.upload with
            | .error e =>
              failJob j5 ("failed to upload to S3: " ++ e) now
                ([j1, j4] ++ chunkSaves) calls writes
            | .ok url =>
              completeRun j5 ("output_" ++ j5.id ++ ".mp4") url now
                ([j1, j4] ++ chunkSaves) calls writes
        else
          completeRun j5 ("output_" ++ j5.id ++ ".mp4") "" now
            ([j1, j4] ++ chunkSaves) calls writes

/-- service.go `processJob`: resolve the generator, transition to RUNNING and
save, stage the image and audio, resize and encode the image, split the
audio, populate and save the PENDING chunks, then either complete immediately
in dry-run mode or drive the chunks, join, optionally upload to S3, and
complete; every pre-completion failure goes through failJob. Temp-file
cleanup touches no job state and is not traced. -/
def processJob (j : Job) (input : PVInput) (o : RunOracle) (now : Nat) : RunResult :=
  match o.getGen with
  | .error e => failJob j e now [] [] []
  | .ok _ =>
    match j.start now with
    | (js, some _) =>
      failJob js ("failed to start job: " ++ "invalid state transition") now [] [] []
    | (j1, none) =>
      match o.saveImage with
      | .error e => failJob j1 ("failed to save image: " ++ e) now [j1] [] []
      | .ok imagePath =>
        match o.saveAudio with
        | .error e =>
          failJob { j1 with inputImagePath := imagePath }
            ("failed to save audio: " ++ e) now [j1] [] []
        | .ok audioPath =>
          match o.resize with
          | .error e =>
            failJob { j1 with inputImagePath := imagePath, inputAudioPath := audioPath }
              ("failed to resize image: " ++ e) now [j1] [] []
          | .ok _ =>
            match o.encodeImage with
            | .error e =>
              failJob { j1 with inputImagePath := imagePath, inputAudioPath := audioPath }
                ("failed to encode resized image: " ++ e) now [j1] [] []
            | .ok _resizedImageB64 =>
              match o.split with
              | .error e =>
                failJob { j1 with inputImagePath := imagePath, inputAudioPath := audioPath }
                  ("failed to split audio: " ++ e) now [j1] [] []
              | .ok audioChunks =>
                processJobChunksPhase
                  (({ j1 with inputImagePath := imagePath, inputAudioPath := audioPath }).setChunks (buildChunks j1.id audioChunks) now)
                  input o now j1 audioChunks

/-! ### Supporting lemmas for the run theorems -/

theorem ne_empty_of_append_left {s : String} (t : String) (hs : s ≠ "") :
    s ++ t ≠ "" := by
  intro h
  apply hs
  have hl := congrArg String.length h
  rw [String.length_append] at hl
  have hz : ("" : String).length = 0 := rfl
  have h0 : s.length = 0 := by omega
  obtain ⟨data⟩ := s
  cases data with
  | nil => rfl
  | cons c cs => simp [String.length] at h0

theorem pollForResult_error_ne_empty :
    ∀ (l : List PollStep) (e : String),
      pollForResultWithGenerator l = .error e → e ≠ "" := by
  intro l
  induction l with
  | nil =>
    intro e he
    simp only [pollForResultWithGenerator, Except.error.injEq] at he
    subst he
    decide
  | cons step rest ih =>
    intro e he
    cases step with
    | transportError m =>
      exact ih e (by simpa [pollForResultWithGenerator] using he)
    | response r =>
      cases hst : r.status with
      | completed => simp [pollForResultWithGenerator, hst] at he
      | failed =>
        by_cases hre : r.error ≠ ""
        · simp only [pollForResultWithGenerator, hst, if_pos hre, Except.error.injEq] at he
          subst he
          exact ne_empty_of_append_left _ (by decide)
        · simp only [pollForResultWithGenerator, hst, if_neg hre, Except.error.injEq] at he
          subst he
          decide
      | cancelled =>
        simp only [pollForResultWithGenerator, hst, Except.error.injEq] at he
        subst he
        decide
      | timedOut =>
        simp only [pollForResultWithGenerator, hst, Except.error.injEq] at he
        subst he
        decide
      | pending =>
        exact ih e (by simpa [pollForResultWithGenerator, hst] using he)
      | inQueue =>
        exact ih e (by simpa [pollForResultWithGenerator, hst] using he)
      | running =>
        exact ih e (by simpa [pollForResultWithGenerator, hst] using he)

theorem updateChunkStatus_status (j : Job) (idx : Int) (st : ChunkStatus)
    (e : String) (now : Nat) :
    (updateChunkStatus j idx st e now).status = j.status := by
  unfold updateChunkStatus
  split <;> rfl

theorem updateChunkStatus_progress (j : Job) (idx : Int) (st : ChunkStatus)
    (e : String) (now : Nat) :
    (updateChunkStatus j idx st e now).progress = j.progress := by
  unfold updateChunkStatus
  split <;> rfl

theorem updateChunkStatus_outputVideoPath (j : Job) (idx : Int) (st : ChunkStatus)
    (e : String) (now : Nat) :
    (updateChunkStatus j idx st e now).outputVideoPath = j.outputVideoPath := by
  unfold updateChunkStatus
  split <;> rfl

theorem updateChunkStatus_id (j : Job) (idx : Int) (st : ChunkStatus)
    (e : String) (now : Nat) :
    (updateChunkStatus j idx st e now).id = j.id := by
  unfold updateChunkStatus
  split <;> rfl

theorem updateChunkStatus_chunks_length (j : Job) (idx : Int) (st : ChunkStatus)
    (e : String) (now : Nat) :
    (updateChunkStatus j idx st e now).chunks.length = j.chunks.length := by
  unfold updateChunkStatus
  split <;> simp [length_modifyNth]

theorem setChunkProviderID_status (j : Job) (idx : Nat) (pid : String) (now : Nat) :
    (setChunkProviderID j idx pid now).status = j.status := by
  unfold setChunkProviderID
  split <;> rfl

theorem setChunkProviderID_progress (j : Job) (idx : Nat) (pid : String) (now : Nat) :
    (setChunkProviderID j idx pid now).progress = j.progress := by
  unfold setChunkProviderID
  split <;> rfl

theorem setChunkProviderID_outputVideoPath (j : Job) (idx : Nat) (pid : String)
    (now : Nat) :
    (setChunkProviderID j idx pid now).outputVideoPath = j.outputVideoPath := by
  unfold setChunkProviderID
  split <;> rfl

theorem setChunkProviderID_id (j : Job) (idx : Nat) (pid : String) (now : Nat) :
    (setChunkProviderID j idx pid now).id = j.id := by
  unfold setChunkProviderID
  split <;> rfl

theorem setChunkProviderID_chunks_length (j : Job) (idx : Nat) (pid : String)
    (now : Nat) :
    (setChunkProviderID j idx pid now).chunks.length = j.chunks.length := by
  unfold setChunkProviderID
  split <;> simp [length_modifyNth]

theorem setChunkCompleted_status (j : Job) (idx : Nat) (p : String) (now : Nat) :
    (setChunkCompleted j idx p now).status = j.status := by
  unfold setChunkCompleted
  split <;> rfl

theorem setChunkCompleted_progress (j : Job) (idx : Nat) (p : String) (now : Nat) :
    (setChunkCompleted j idx p now).progress = j.progress := by
  unfold setChunkCompleted
  split <;> rfl

theorem setChunkCompleted_outputVideoPath (j : Job) (idx : Nat) (p : String)
    (now : Nat) :
    (setChunkCompleted j idx p now).outputVideoPath = j.outputVideoPath := by
  unfold setChunkCompleted
  split <;> rfl

theorem setChunkCompleted_id (j : Job) (idx : Nat) (p : String) (now : Nat) :
    (setChunkCompleted j idx p now).id = j.id := by
  unfold setChunkCompleted
  split <;> rfl

theorem setChunkCompleted_chunks_length (j : Job) (idx : Nat) (p : String)
    (now : Nat) :
    (setChunkCompleted j idx p now).chunks.length = j.chunks.length := by
  unfold setChunkCompleted
  split <;> simp [length_modifyNth]

theorem updateChunkStatus_get?_ne (j : Job) (idx : Int) (st : ChunkStatus)
    (e : String) (now : Nat) (k : Nat) (hk : k ≠ idx.toNat) :
    (updateChunkStatus j idx st e now).chunks[k]? = j.chunks[k]? := by
  unfold updateChunkStatus
  split
  · simp [get?_modifyNth_ne _ _ _ _ hk]
  · rfl

theorem updateChunkStatus_get?_self (j : Job) (i : Nat) (st : ChunkStatus)
    (e : String) (now : Nat) (hi : i < j.chunks.length) :
    (updateChunkStatus j (i : Int) st e now).chunks[i]?.map Chunk.status = some st ∧
    (updateChunkStatus j (i : Int) st e now).chunks[i]?.map Chunk.error = some e := by
  have hguard : (0 : Int) ≤ (i : Int) ∧ (i : Int) < (j.chunks.length : Int) := by
    constructor
    · exact_mod_cast Nat.zero_le i
    · exact_mod_cast hi
  have htn : ((i : Int)).toNat = i := Int.toNat_natCast i
  have hsome : j.chunks[i]? = some (j.chunks[i]) := List.getElem?_eq_getElem hi
  unfold updateChunkStatus
  rw [if_pos hguard]
  simp only [htn, get?_modifyNth_eq, hsome, Option.map_some]
  exact ⟨rfl, rfl⟩

theorem setChunkProviderID_get?_ne (j : Job) (idx : Nat) (pid : String) (now : Nat)
    (k : Nat) (hk : k ≠ idx) :
    (setChunkProviderID j idx pid now).chunks[k]? = j.chunks[k]? := by
  unfold setChunkProviderID
  split
  · simp [get?_modifyNth_ne _ _ _ _ hk]
  · rfl

theorem setChunkCompleted_get?_ne (j : Job) (idx : Nat) (p : String) (now : Nat)
    (k : Nat) (hk : k ≠ idx) :
    (setChunkCompleted j idx p now).chunks[k]? = j.chunks[k]? := by
  unfold setChunkCompleted
  split
  · simp [get?_modifyNth_ne _ _ _ _ hk]
  · rfl

/-- Whether an Except value is a success. -/
def exceptIsOk {ε α : Type} : Except ε α → Bool
  | .ok _ => true
  | .error _ => false

theorem updateFailed_record (X : Job) (i : Nat) (e : String) (now : Nat)
    (hi : i < X.chunks.length) (hne : e ≠ "") :
    ∃ c, (updateChunkStatus X (i : Int) .failed e now).chunks[i]? = some c ∧
      c.status = .failed ∧ c.error ≠ "" := by
  obtain ⟨h1, h2⟩ := updateChunkStatus_get?_self X i .failed e now hi
  cases hc : (updateChunkStatus X (i : Int) .failed e now).chunks[i]? with
  | none =>
    rw [hc] at h1
    cases h1
  | some c =>
    rw [hc] at h1 h2
    simp at h1 h2
    exact ⟨c, rfl, h1, by rw [h2]; exact hne⟩

/-- Behaviour of one chunk step: the job-level fields are untouched, other
chunk records are untouched, every traced provider call names this chunk,
success is decided by the oracle alone, and a failing step leaves this chunk
FAILED with a non-empty error message. -/
theorem processChunk_spec (j : Job) (idx : Nat) (o : ChunkOracle) (now : Nat)
    (r : Job × List PCall × Except String String)
    (hr : processChunkWithGenerator j idx o now = r) :
    r.1.status = j.status ∧ r.1.progress = j.progress ∧
    r.1.outputVideoPath = j.outputVideoPath ∧
    r.1.chunks.length = j.chunks.length ∧
    (∀ k : Nat, k ≠ idx → r.1.chunks[k]? = j.chunks[k]?) ∧
    (∀ c ∈ r.2.1, c.idx = idx) ∧
    exceptIsOk r.2.2 = chunkOk o ∧
    (chunkOk o = false → idx < j.chunks.length → o.errorsNonEmpty →
      ∃ c, r.1.chunks[idx]? = some c ∧ c.status = .failed ∧ c.error ≠ "") := by
  subst hr
  have htn : ((idx : Int)).toNat = idx := Int.toNat_natCast idx
  unfold processChunkWithGenerator chunkOk
  rcases he : o.encodeAudio with e | a
  · simp only [he]
    refine ⟨by simp [updateChunkStatus_status], by simp [updateChunkStatus_progress],
      by simp [updateChunkStatus_outputVideoPath],
      by simp [updateChunkStatus_chunks_length], ?_, by simp, rfl, ?_⟩
    · intro k hk
      rw [updateChunkStatus_get?_ne _ _ _ _ _ _ (by rw [htn]; exact hk),
        updateChunkStatus_get?_ne _ _ _ _ _ _ (by rw [htn]; exact hk)]
    · intro _ hi hne
      exact updateFailed_record _ idx e now
        (by rw [updateChunkStatus_chunks_length]; exact hi) (hne.1 e he)
  · rcases hs : o.submit with e | pid
    · simp only [he, hs]
      refine ⟨by simp [updateChunkStatus_status], by simp [updateChunkStatus_progress],
        by simp [updateChunkStatus_outputVideoPath],
        by simp [updateChunkStatus_chunks_length], ?_, ?_, rfl, ?_⟩
      · intro k hk
        rw [updateChunkStatus_get?_ne _ _ _ _ _ _ (by rw [htn]; exact hk),
          updateChunkStatus_get?_ne _ _ _ _ _ _ (by rw [htn]; exact hk)]
      · intro c hc
        simp only [List.mem_singleton] at hc
        subst hc
        rfl
      · intro _ hi hne
        exact updateFailed_record _ idx e now
          (by rw [updateChunkStatus_chunks_length]; exact hi) (hne.2.1 e hs)
    · rcases hpoll : pollForResultWithGenerator o.pollSteps with e | pr
      · simp only [he, hs, hpoll]
        refine ⟨by simp [updateChunkStatus_status, setChunkProviderID_status],
          by simp [updateChunkStatus_progress, setChunkProviderID_progress],
          by simp [updateChunkStatus_outputVideoPath, setChunkProviderID_outputVideoPath],
          by simp [updateChunkStatus_chunks_length, setChunkProviderID_chunks_length],
          ?_, ?_, rfl, ?_⟩
        · intro k hk
          rw [updateChunkStatus_get?_ne _ _ _ _ _ _ (by rw [htn]; exact hk),
            setChunkProviderID_get?_ne _ _ _ _ _ hk,
            updateChunkStatus_get?_ne _ _ _ _ _ _ (by rw [htn]; exact hk)]
        · intro c hc
          simp only [List.mem_cons, List.not_mem_nil, or_false] at hc
          rcases hc with rfl | rfl <;> rfl
        · intro _ hi hne
          exact updateFailed_record _ idx e now
            (by rw [setChunkProviderID_chunks_length, updateChunkStatus_chunks_length]
                exact hi)
            (pollForResult_error_ne_empty o.pollSteps e hpoll)
      · by_cases hb64 : pr.videoBase64 ≠ ""
        · rcases hdv : o.decodeVideo with e | u
          · simp only [he, hs, hpoll, if_pos hb64, hdv]
            refine ⟨by simp [updateChunkStatus_status, setChunkProviderID_status],
              by simp [updateChunkStatus_progress, setChunkProviderID_progress],
              by simp [updateChunkStatus_outputVideoPath, setChunkProviderID_outputVideoPath],
              by simp [updateChunkStatus_chunks_length, setChunkProviderID_chunks_length],
              ?_, ?_, rfl, ?_⟩
            · intro k hk
              rw [updateChunkStatus_get?_ne _ _ _ _ _ _ (by rw [htn]; exact hk),
                setChunkProviderID_get?_ne _ _ _ _ _ hk,
                updateChunkStatus_get?_ne _ _ _ _ _ _ (by rw [htn]; exact hk)]
            · intro c hc
              simp only [List.mem_cons, List.not_mem_nil, or_false] at hc
              rcases hc with rfl | rfl <;> rfl
            · intro _ hi hne
              exact updateFailed_record _ idx e now
                (by rw [setChunkProviderID_chunks_length, updateChunkStatus_chunks_length]
                    exact hi)
                (hne.2.2.1 e hdv)
          · rcases hsv : o.saveVideo with e | videoPath
            · simp only [he, hs, hpoll, if_pos hb64, hdv, hsv]
              refine ⟨by simp [updateChunkStatus_status, setChunkProviderID_status],
                by simp [updateChunkStatus_progress, setChunkProviderID_progress],
                by simp [updateChunkStatus_outputVideoPath,
                  setChunkProviderID_outputVideoPath],
                by simp [updateChunkStatus_chunks_length, setChunkProviderID_chunks_length],
                ?_, ?_, rfl, ?_⟩
              · intro k hk
                rw [updateChunkStatus_get?_ne _ _ _ _ _ _ (by rw [htn]; exact hk),
                  setChunkProviderID_get?_ne _ _ _ _ _ hk,
                  updateChunkStatus_get?_ne _ _ _ _ _ _ (by rw [htn]; exact hk)]
              · intro c hc
                simp only [List.mem_cons, List.not_mem_nil, or_false] at hc
                rcases hc with rfl | rfl <;> rfl
              · intro _ hi hne
                exact updateFailed_record _ idx e now
                  (by rw [setChunkProviderID_chunks_length,
                        updateChunkStatus_chunks_length]
                      exact hi)
                  (hne.2.2.2.1 e hsv)
            · simp only [he, hs, hpoll, if_pos hb64, hdv, hsv]
              refine ⟨by simp [updateChunkStatus_status, setChunkProviderID_status,
                  setChunkCompleted_status],
                by simp [updateChunkStatus_progress, setChunkProviderID_progress,
                  setChunkCompleted_progress],
                by simp [updateChunkStatus_outputVideoPath,
                  setChunkProviderID_outputVideoPath, setChunkCompleted_outputVideoPath],
                by simp [updateChunkStatus_chunks_length, setChunkProviderID_chunks_length,
                  setChunkCompleted_chunks_length],
                ?_, ?_, rfl, by intro hfalse; cases hfalse⟩
              · intro k hk
                rw [setChunkCompleted_get?_ne _ _ _ _ _ hk,
                  setChunkProviderID_get?_ne _ _ _ _ _ hk,
                  updateChunkStatus_get?_ne _ _ _ _ _ _ (by rw [htn]; exact hk)]
              · intro c hc
                simp only [List.mem_cons, List.not_mem_nil, or_false] at hc
                rcases hc with rfl | rfl <;> rfl
        · by_cases hurl : pr.videoURL ≠ ""
          · rcases hdl : o.download with e | u
            · simp only [he, hs, hpoll, if_neg hb64, if_pos hurl, hdl]
              refine ⟨by simp [updateChunkStatus_status, setChunkProviderID_status],
                by simp [updateChunkStatus_progress, setChunkProviderID_progress],
                by simp [updateChunkStatus_outputVideoPath,
                  setChunkProviderID_outputVideoPath],
                by simp [updateChunkStatus_chunks_length, setChunkProviderID_chunks_length],
                ?_, ?_, rfl, ?_⟩
              · intro k hk
                rw [updateChunkStatus_get?_ne _ _ _ _ _ _ (by rw [htn]; exact hk),
                  setChunkProviderID_get?_ne _ _ _ _ _ hk,
                  updateChunkStatus_get?_ne _ _ _ _ _ _ (by rw [htn]; exact hk)]
              · intro c hc
                simp only [List.mem_cons, List.not_mem_nil, or_false] at hc
                rcases hc with rfl | rfl | rfl <;> rfl
              · intro _ hi hne
                exact updateFailed_record _ idx e now
                  (by rw [setChunkProviderID_chunks_length,
                        updateChunkStatus_chunks_length]
                      exact hi)
                  (hne.2.2.2.2 e hdl)
            · simp only [he, hs, hpoll, if_neg hb64, if_pos hurl, hdl]
              refine ⟨by simp [updateChunkStatus_status, setChunkProviderID_status,
                  setChunkCompleted_status],
                by simp [updateChunkStatus_progress, setChunkProviderID_progress,
                  setChunkCompleted_progress],
                by simp [updateChunkStatus_outputVideoPath,
                  setChunkProviderID_outputVideoPath, setChunkCompleted_outputVideoPath],
                by simp [updateChunkStatus_chunks_length, setChunkProviderID_chunks_length,
                  setChunkCompleted_chunks_length],
                ?_, ?_, rfl, by intro hfalse; cases hfalse⟩
              · intro k hk
                rw [setChunkCompleted_get?_ne _ _ _ _ _ hk,
                  setChunkProviderID_get?_ne _ _ _ _ _ hk,
                  updateChunkStatus_get?_ne _ _ _ _ _ _ (by rw [htn]; exact hk)]
              · intro c hc
                simp only [List.mem_cons, List.not_mem_nil, or_false] at hc
                rcases hc with rfl | rfl | rfl <;> rfl
          · simp only [he, hs, hpoll, if_neg hb64, if_neg hurl]
            refine ⟨by simp [updateChunkStatus_status, setChunkProviderID_status],
              by simp [updateChunkStatus_progress, setChunkProviderID_progress],
              by simp [updateChunkStatus_outputVideoPath,
                setChunkProviderID_outputVideoPath],
              by simp [updateChunkStatus_chunks_length, setChunkProviderID_chunks_length],
              ?_, ?_, rfl, ?_⟩
            · intro k hk
              rw [updateChunkStatus_get?_ne _ _ _ _ _ _ (by rw [htn]; exact hk),
                setChunkProviderID_get?_ne _ _ _ _ _ hk,
                updateChunkStatus_get?_ne _ _ _ _ _ _ (by rw [htn]; exact hk)]
            · intro c hc
              simp only [List.mem_cons, List.not_mem_nil, or_false] at hc
              rcases hc with rfl | rfl <;> rfl
            · intro _ hi _
              exact updateFailed_record _ idx "no video output from provider" now
                (by rw [setChunkProviderID_chunks_length, updateChunkStatus_chunks_length]
                    exact hi)
                (by decide)

theorem buildChunksAux_length (jobID : String) :
    ∀ (i : Nat) (l : List String), (buildChunksAux jobID i l).length = l.length := by
  intro i l
  induction l generalizing i with
  | nil => rfl
  | cons p rest ih => simpa [buildChunksAux] using ih (i + 1)

theorem buildChunksAux_get? (jobID : String) :
    ∀ (l : List String) (i k : Nat) (c : Chunk),
      (buildChunksAux jobID i l)[k]? = some c →
      c.status = .pending ∧ c.index = ((i + k : Nat) : Int) ∧
      some c.inputPath = l[k]? := by
  intro l
  induction l with
  | nil =>
    intro i k c hc
    simp [buildChunksAux] at hc
  | cons p rest ih =>
    intro i k c hc
    cases k with
    | zero =>
      simp only [buildChunksAux, List.getElem?_cons_zero, Option.some.injEq] at hc
      subst hc
      simp
    | succ k2 =>
      simp only [buildChunksAux, List.getElem?_cons_succ] at hc
      obtain ⟨h1, h2, h3⟩ := ih (i + 1) k2 c hc
      refine ⟨h1, ?_, by simpa using h3⟩
      rw [h2]
      congr 1
      omega

theorem buildChunks_length (jobID : String) (l : List String) :
    (buildChunks jobID l).length = l.length :=
  buildChunksAux_length jobID 0 l

theorem buildChunks_get? (jobID : String) (l : List String) (k : Nat) (c : Chunk)
    (hc : (buildChunks jobID l)[k]? = some c) :
    c.status = .pending ∧ c.index = (k : Int) ∧ some c.inputPath = l[k]? := by
  obtain ⟨h1, h2, h3⟩ := buildChunksAux_get? jobID l 0 k c hc
  exact ⟨h1, by simpa using h2, h3⟩

theorem Job.start_of_inQueue (j : Job) (now : Nat) (h : j.status = .inQueue) :
    j.start now = ({ j with status := .running, updatedAt := now, startedAt := now }, none) := by
  unfold Job.start Job.transitionTo
  rw [if_pos (by rw [h]; decide)]
  simp

theorem Job.complete_of_running (j : Job) (now : Nat) (h : j.status = .running) :
    j.complete now =
      ({ j with status := .completed, updatedAt := now, completedAt := now }, none) := by
  unfold Job.complete Job.transitionTo
  rw [if_pos (by rw [h]; decide)]
  simp

theorem fail_fields (j : Job) (msg : String) (now : Nat) :
    (j.fail msg now).1.progress = j.progress ∧
    (j.fail msg now).1.outputVideoPath = j.outputVideoPath ∧
    (j.fail msg now).1.chunks = j.chunks ∧
    (j.fail msg now).1.id = j.id ∧
    (j.fail msg now).1.error = msg ∧
    ((j.fail msg now).1.status = .failed ∨ (j.fail msg now).1.status = j.status) := by
  unfold Job.fail Job.transitionTo
  split <;> simp

theorem fail_status_of_running (j : Job) (msg : String) (now : Nat)
    (h : j.status = .running) : (j.fail msg now).1.status = .failed := by
  unfold Job.fail Job.transitionTo
  rw [if_pos (by rw [h]; decide)]

theorem updateProgress_fields (j : Job) (p : Int) (now : Nat) :
    (j.updateProgress p now).status = j.status ∧
    (j.updateProgress p now).outputVideoPath = j.outputVideoPath ∧
    (j.updateProgress p now).chunks = j.chunks ∧
    (j.updateProgress p now).id = j.id ∧
    (j.updateProgress p now).error = j.error := by
  unfold Job.updateProgress
  simp

theorem updateProgress_progress_eq (j : Job) (p : Int) (now : Nat)
    (h0 : 0 ≤ p) (h100 : p ≤ 100) : (j.updateProgress p now).progress = p := by
  unfold Job.updateProgress
  simp only
  rw [if_neg (by omega), if_neg (by omega)]

theorem setChunks_fields (j : Job) (chunks : List Chunk) (now : Nat) :
    (j.setChunks chunks now).status = j.status ∧
    (j.setChunks chunks now).progress = j.progress ∧
    (j.setChunks chunks now).outputVideoPath = j.outputVideoPath ∧
    (j.setChunks chunks now).chunks = chunks ∧
    (j.setChunks chunks now).id = j.id := by
  unfold Job.setChunks
  simp

theorem setOutput_fields (j : Job) (vp vu : String) (now : Nat) :
    (j.setOutput vp vu now).status = j.status ∧
    (j.setOutput vp vu now).progress = j.progress ∧
    (j.setOutput vp vu now).chunks = j.chunks ∧
    (j.setOutput vp vu now).id = j.id := by
  unfold Job.setOutput
  simp

theorem chain'_append_singleton {l : List Int} {a : Int}
    (hl : List.Chain' (· ≤ ·) l) (ha : ∀ x ∈ l, x ≤ a) :
    List.Chain' (· ≤ ·) (l ++ [a]) := by
  refine List.Chain'.append hl (List.chain'_singleton a) ?_
  intro x hx y hy
  simp only [List.head?_cons, Option.mem_def, Option.some.injEq] at hy
  subst hy
  obtain ⟨hne, hx2⟩ := List.mem_getLast?_eq_getLast hx
  rw [hx2]
  exact ha _ (List.getLast_mem hne)

theorem div90_le (i n : Nat) (h : i ≤ n) : i * 90 / n ≤ 90 := by
  rcases Nat.eq_zero_or_pos n with h0 | h0
  · subst h0
    simp
  · calc i * 90 / n ≤ n * 90 / n := Nat.div_le_div_right (Nat.mul_le_mul_right _ h)
      _ = 90 := Nat.mul_div_cancel_left 90 h0

/-- Progress bookkeeping of the sequential chunk loop: the loop only appends
saves whose progress values it also writes, those writes are a non-decreasing
sequence within [0, 90] continuing from the incoming progress, and the job
status and output path never change inside the loop. -/
theorem processChunksSeqAux_spec (oracles : Nat → ChunkOracle) (cancelBefore : Nat → Bool)
    (n now : Nat) :
    ∀ (paths : List String) (i0 : Nat) (j : Job) (calls : List PCall) (saves : List Job)
      (writes : List Int) (vps : List String) (r : SeqResult),
      processChunksSeqAux oracles cancelBefore n now paths i0 j calls saves writes vps = r →
      i0 + paths.length ≤ n →
      j.progress ≤ ((i0 * 90 / n : Nat) : Int) →
      0 ≤ j.progress →
      r.job.status = j.status ∧
      r.job.outputVideoPath = j.outputVideoPath ∧
      0 ≤ r.job.progress ∧ r.job.progress ≤ 90 ∧
      ∃ newSaves newWrites,
        r.saves = saves ++ newSaves ∧
        r.progressWrites = writes ++ newWrites ∧
        newSaves.map Job.progress = newWrites ∧
        (∀ s ∈ newSaves, s.status = j.status) ∧
        List.Chain' (· ≤ ·) (j.progress :: newWrites) ∧
        (∀ p ∈ newWrites, 0 ≤ p ∧ p ≤ 90) := by
  intro paths
  induction paths with
  | nil =>
    intro i0 j calls saves writes vps r hr hlen hprog h0
    simp only [processChunksSeqAux] at hr
    subst hr
    have hb : j.progress ≤ 90 := by
      have : (i0 * 90 / n : Nat) ≤ 90 := div90_le i0 n (by omega)
      have : ((i0 * 90 / n : Nat) : Int) ≤ 90 := by exact_mod_cast this
      omega
    exact ⟨rfl, rfl, h0, hb, [], [], by simp, by simp, rfl, by simp, by simp, by simp⟩
  | cons path rest ih =>
    intro i0 j calls saves writes vps r hr hlen hprog h0
    have hb : j.progress ≤ 90 := by
      have h1 : (i0 * 90 / n : Nat) ≤ 90 := div90_le i0 n (by simp at hlen; omega)
      have h2 : ((i0 * 90 / n : Nat) : Int) ≤ 90 := by exact_mod_cast h1
      omega
    unfold processChunksSeqAux at hr
    by_cases hcan : cancelBefore i0 = true
    · rw [if_pos hcan] at hr
      subst hr
      exact ⟨rfl, rfl, h0, hb, [], [], by simp, by simp, rfl, by simp, by simp, by simp⟩
    · rw [if_neg (by simp [hcan])] at hr
      rcases hpc : processChunkWithGenerator j i0 (oracles i0) now with ⟨j1, cs, res⟩
      obtain ⟨hs1, hs2, hs3, hs4, _, _, _, _⟩ :=
        processChunk_spec j i0 (oracles i0) now (j1, cs, res) hpc
      rw [hpc] at hr
      rcases res with e | vp
      · simp only at hr
        subst hr
        exact ⟨hs1, hs3, by rw [hs2]; exact h0, by rw [hs2]; exact hb,
          [], [], by simp, by simp, rfl, by simp, by simp, by simp⟩
      · simp only at hr
        have hple : (i0 + 1) * 90 / n ≤ 90 := div90_le (i0 + 1) n (by simp at hlen; omega)
        have hple2 : (((i0 + 1) * 90 / n : Nat) : Int) ≤ 90 := by exact_mod_cast hple
        have hp0 : (0 : Int) ≤ (((i0 + 1) * 90 / n : Nat) : Int) := by positivity
        have hup : (j1.updateProgress (((i0 + 1) * 90 / n : Nat) : Int) now).progress =
            (((i0 + 1) * 90 / n : Nat) : Int) :=
          updateProgress_progress_eq _ _ _ hp0 (by omega)
        obtain ⟨ha1, ha2, ha3, ha4, newSaves, newWrites, hb1, hb2, hb3, hb4, hb5, hb6⟩ :=
          ih (i0 + 1) (j1.updateProgress (((i0 + 1) * 90 / n : Nat) : Int) now)
            (calls ++ cs) (saves ++ [j1.updateProgress (((i0 + 1) * 90 / n : Nat) : Int) now])
            (writes ++ [(((i0 + 1) * 90 / n : Nat) : Int)]) (vp :: vps) r hr
            (by simp at hlen ⊢; omega)
            (by rw [hup])
            (by rw [hup]; exact hp0)
        have hups : (j1.updateProgress (((i0 + 1) * 90 / n : Nat) : Int) now).status =
            j.status := by
          rw [(updateProgress_fields _ _ _).1, hs1]
        have hupo : (j1.updateProgress (((i0 + 1) * 90 / n : Nat) : Int) now).outputVideoPath =
            j.outputVideoPath := by
          rw [(updateProgress_fields _ _ _).2.1, hs3]
        refine ⟨by rw [ha1, hups], by rw [ha2, hupo], ha3, ha4,
          (j1.updateProgress (((i0 + 1) * 90 / n : Nat) : Int) now) :: newSaves,
          (((i0 + 1) * 90 / n : Nat) : Int) :: newWrites, ?_, ?_, ?_, ?_, ?_, ?_⟩
        · rw [hb1]
          simp
        · rw [hb2]
          simp
        · simp only [List.map_cons, hb3, hup]
        · intro s hs
          rcases List.mem_cons.mp hs with rfl | hs2
          · exact hups
          · rw [hb4 s hs2, hups]
        · rw [List.chain'_cons]
          constructor
          · have hmono : i0 * 90 / n ≤ (i0 + 1) * 90 / n :=
              Nat.div_le_div_right (Nat.mul_le_mul_right _ (by omega))
            have : ((i0 * 90 / n : Nat) : Int) ≤ (((i0 + 1) * 90 / n : Nat) : Int) := by
              exact_mod_cast hmono
            omega
          · rw [← hup]
            exact hb5
        · intro p hp
          rcases List.mem_cons.mp hp with rfl | hp2
          · exact ⟨hp0, hple2⟩
          · exact hb6 p hp2

/-- First-failure behaviour of the sequential chunk loop: if the chunks
before `ifail` succeed, no cancellation fires up to `ifail`, and chunk
`ifail` fails with non-empty error payloads, then the loop stops with an
error, the failing chunk record is FAILED with a non-empty message, chunks
after it are untouched, and every provider interaction names a chunk index
at most `ifail`. -/
theorem processChunksSeqAux_first_failure (oracles : Nat → ChunkOracle)
    (cancelBefore : Nat → Bool) (n now : Nat) (ifail : Nat) :
    ∀ (paths : List String) (i0 : Nat) (j : Job) (calls : List PCall) (saves : List Job)
      (writes : List Int) (vps : List String) (r : SeqResult),
      processChunksSeqAux oracles cancelBefore n now paths i0 j calls saves writes vps = r →
      i0 ≤ ifail → ifail < i0 + paths.length →
      (∀ k, i0 ≤ k → k ≤ ifail → cancelBefore k = false) →
      (∀ k, i0 ≤ k → k < ifail → chunkOk (oracles k) = true) →
      chunkOk (oracles ifail) = false →
      (oracles ifail).errorsNonEmpty →
      ifail < j.chunks.length →
      (∀ c ∈ calls, c.idx < i0) →
      r.job.status = j.status ∧
      r.job.outputVideoPath = j.outputVideoPath ∧
      (∃ c, r.job.chunks[ifail]? = some c ∧ c.status = .failed ∧ c.error ≠ "") ∧
      (∀ k, ifail < k → r.job.chunks[k]? = j.chunks[k]?) ∧
      (∀ c ∈ r.calls, c.idx ≤ ifail) ∧
      (∃ e, r.result = .error e) := by
  intro paths
  induction paths with
  | nil =>
    intro i0 j calls saves writes vps r hr h1 h2 _ _ _ _ _ _
    simp at h2
    omega
  | cons path rest ih =>
    intro i0 j calls saves writes vps r hr h1 h2 hcan hok hfail hne hich hcalls
    unfold processChunksSeqAux at hr
    rw [if_neg (by simp [hcan i0 (le_refl _) h1])] at hr
    rcases hpc : processChunkWithGenerator j i0 (oracles i0) now with ⟨j1, cs, res⟩
    obtain ⟨hs1, hs2, hs3, hs4, hs5, hs6, hs7, hs8⟩ :=
      processChunk_spec j i0 (oracles i0) now (j1, cs, res) hpc
    rw [hpc] at hr
    by_cases hieq : i0 = ifail
    · subst hieq
      have hresErr : ∃ e, res = .error e := by
        cases res with
        | ok v => simp [exceptIsOk, hfail] at hs7
        | error e => exact ⟨e, rfl⟩
      obtain ⟨e, he⟩ := hresErr
      subst he
      simp only at hr
      subst hr
      refine ⟨hs1, hs3, hs8 hfail hich hne, ?_, ?_, ⟨_, rfl⟩⟩
      · intro k hk
        exact hs5 k (by omega)
      · intro c hc
        rcases List.mem_append.mp hc with hc1 | hc2
        · exact le_of_lt (hcalls c hc1)
        · rw [hs6 c hc2]
    · have hlt : i0 < ifail := by omega
      have hresOk : ∃ v, res = .ok v := by
        cases res with
        | ok v => exact ⟨v, rfl⟩
        | error e =>
          rw [hok i0 (le_refl _) hlt] at hs7
          simp [exceptIsOk] at hs7
      obtain ⟨vp, hv⟩ := hresOk
      subst hv
      simp only at hr
      obtain ⟨ha1, ha2, ha3, ha4, ha5, ha6⟩ :=
        ih (i0 + 1) (j1.updateProgress (((i0 + 1) * 90 / n : Nat) : Int) now)
          (calls ++ cs) (saves ++ [j1.updateProgress (((i0 + 1) * 90 / n : Nat) : Int) now])
          (writes ++ [(((i0 + 1) * 90 / n : Nat) : Int)]) (vp :: vps) r hr
          (by omega) (by simp at h2; omega)
          (fun k hk1 hk2 => hcan k (by omega) hk2)
          (fun k hk1 hk2 => hok k (by omega) hk2)
          hfail hne
          (by rw [(updateProgress_fields _ _ _).2.2.1, hs4]; exact hich)
          (by
            intro c hc
            rcases List.mem_append.mp hc with hc1 | hc2
            · exact lt_trans (hcalls c hc1) (Nat.lt_succ_self _)
            · rw [hs6 c hc2]; exact Nat.lt_succ_self _)
      refine ⟨?_, ?_, ha3, ?_, ha5, ha6⟩
      · rw [ha1, (updateProgress_fields _ _ _).1, hs1]
      · rw [ha2, (updateProgress_fields _ _ _).2.1, hs3]
      · intro k hk
        rw [ha4 k hk]
        have hch : (j1.updateProgress (((i0 + 1) * 90 / n : Nat) : Int) now).chunks =
            j1.chunks := (updateProgress_fields _ _ _).2.2.1
        rw [hch]
        exact hs5 k (by omega)

/-- C9: a dry-run request performs the local preprocessing (decode and stage,
resize, split), populates the chunk records from the splitter output as
PENDING with their index and input path, then completes the job with status
COMPLETED and progress 100 while making no provider calls at all: no Submit,
no Poll, no DownloadOutput. -/
theorem dry_run_completes_without_provider_calls
    (j : Job) (input : PVInput) (o : RunOracle) (now : Nat)
    (audioChunks : List String) (imagePath audioPath imgB64 : String)
    (hst : j.status = .inQueue)
    (hgen : o.getGen = .ok ())
    (himg : o.saveImage = .ok imagePath)
    (haud : o.saveAudio = .ok audioPath)
    (hres : o.resize = .ok ())
    (henc : o.encodeImage = .ok imgB64)
    (hsplit : o.split = .ok audioChunks)
    (hdry : input.dryRun = true) :
    (processJob j input o now).job.status = .completed ∧
    (processJob j input o now).job.progress = 100 ∧
    (processJob j input o now).calls = [] ∧
    (processJob j input o now).job.chunks.length = audioChunks.length ∧
    (∀ (k : Nat) (c : Chunk), (processJob j input o now).job.chunks[k]? = some c →
      c.status = .pending ∧ c.index = (k : Int) ∧ some c.inputPath = audioChunks[k]?) ∧
    (processJob j input o now).result = .ok ⟨j.id, .completed, "", "", ""⟩ := by
  have hstart := Job.start_of_inQueue j now hst
  simp only [processJob, hgen, hstart, himg, haud, hres, henc, hsplit]
  unfold processJobChunksPhase
  rw [if_pos (by rw [hdry])]
  rw [Job.complete_of_running]
  · refine ⟨rfl, ?_, rfl, ?_, ?_, rfl⟩
    · simp [Job.updateProgress]
    · simp [Job.updateProgress, Job.setChunks, buildChunks_length]
    · intro k c hc
      apply buildChunks_get? j.id audioChunks k c
      simpa [Job.updateProgress, Job.setChunks] using hc
  · simp [Job.updateProgress, Job.setChunks]

/-- First-failure behaviour of the chunk phase of a run (everything after the
PENDING chunks are saved): the failing chunk aborts the loop, failJob marks
the RUNNING job FAILED, the failing chunk record keeps its non-empty error,
later chunks stay PENDING, the output path is never set, and no provider call
names a chunk beyond the failing one. -/
theorem chunksPhase_first_failure (j4 : Job) (input : PVInput) (o : RunOracle)
    (now : Nat) (j1 : Job) (audioChunks : List String) (ifail : Nat)
    (hdry : input.dryRun = false)
    (h4s : j4.status = .running)
    (h4o : j4.outputVideoPath = "")
    (h4len : ifail < j4.chunks.length)
    (h4pend : ∀ (k : Nat) (c : Chunk), j4.chunks[k]? = some c → c.status = .pending)
    (hlen : ifail < audioChunks.length)
    (hcan : ∀ k, k ≤ ifail → o.cancelBefore k = false)
    (hok : ∀ k, k < ifail → chunkOk (o.chunkOracles k) = true)
    (hfail : chunkOk (o.chunkOracles ifail) = false)
    (hne : (o.chunkOracles ifail).errorsNonEmpty) :
    (processJobChunksPhase j4 input o now j1 audioChunks).job.status = .failed ∧
    (∃ c, (processJobChunksPhase j4 input o now j1 audioChunks).job.chunks[ifail]? = some c ∧
      c.status = .failed ∧ c.error ≠ "") ∧
    (∀ k, ifail < k → ∀ c,
      (processJobChunksPhase j4 input o now j1 audioChunks).job.chunks[k]? = some c →
      c.status = .pending) ∧
    (processJobChunksPhase j4 input o now j1 audioChunks).job.outputVideoPath = "" ∧
    (∀ c ∈ (processJobChunksPhase j4 input o now j1 audioChunks).calls, c.idx ≤ ifail) := by
  unfold processJobChunksPhase
  rw [if_neg (by simp [hdry])]
  rcases hseq : processChunksSeqAux o.chunkOracles o.cancelBefore audioChunks.length now
    audioChunks 0 j4 [] [] [] [] with ⟨j5, calls, chunkSaves, writes, res⟩
  obtain ⟨hb1, hb2, hb3, hb4, hb5, hb6⟩ :=
    processChunksSeqAux_first_failure o.chunkOracles o.cancelBefore audioChunks.length now
      ifail audioChunks 0 j4 [] [] [] [] ⟨j5, calls, chunkSaves, writes, res⟩ hseq
      (Nat.zero_le _) (by omega) (fun k _ hk => hcan k hk) (fun k _ hk => hok k hk)
      hfail hne h4len (by simp)
  obtain ⟨e, he⟩ := hb6
  simp only at he hb1 hb2 hb3 hb4 hb5
  subst he
  simp only [failJob]
  have hfs : ((j5.fail e now).1).status = .failed :=
    fail_status_of_running j5 e now (by rw [hb1, h4s])
  have hfc : ((j5.fail e now).1).chunks = j5.chunks := (fail_fields j5 e now).2.2.1
  have hfo : ((j5.fail e now).1).outputVideoPath = j5.outputVideoPath :=
    (fail_fields j5 e now).2.1
  refine ⟨hfs, ?_, ?_, ?_, ?_⟩
  · rw [hfc]
    exact hb3
  · intro k hk c hc
    rw [hfc, hb4 k hk] at hc
    exact h4pend k c hc
  · rw [hfo, hb2, h4o]
  · exact hb5

/-- C2: in a run whose preprocessing succeeds and in which chunk `ifail` is
the first chunk whose processing fails (failed provider submit, terminal
FAILED, CANCELLED or TIMED_OUT poll outcome including cancellation observed in
the poll loop, or a failed video materialization), the run stops there: no
chunk after `ifail` is ever submitted, polled or downloaded, the job ends
FAILED, the failing chunk record carries a non-empty error, later chunks stay
PENDING, and OutputVideoPath is never set. -/
theorem run_stops_at_first_chunk_failure
    (j : Job) (input : PVInput) (o : RunOracle) (now : Nat)
    (audioChunks : List String) (imagePath audioPath imgB64 : String) (ifail : Nat)
    (hst : j.status = .inQueue)
    (hout : j.outputVideoPath = "")
    (hgen : o.getGen = .ok ())
    (himg : o.saveImage = .ok imagePath)
    (haud : o.saveAudio = .ok audioPath)
    (hres : o.resize = .ok ())
    (henc : o.encodeImage = .ok imgB64)
    (hsplit : o.split = .ok audioChunks)
    (hdry : input.dryRun = false)
    (hcan : ∀ k, k ≤ ifail → o.cancelBefore k = false)
    (hok : ∀ k, k < ifail → chunkOk (o.chunkOracles k) = true)
    (hfail : chunkOk (o.chunkOracles ifail) = false)
    (hne : (o.chunkOracles ifail).errorsNonEmpty)
    (hlen : ifail < audioChunks.length) :
    (processJob j input o now).job.status = .failed ∧
    (∃ c, (processJob j input o now).job.chunks[ifail]? = some c ∧
      c.status = .failed ∧ c.error ≠ "") ∧
    (∀ k, ifail < k → ∀ c, (processJob j input o now).job.chunks[k]? = some c →
      c.status = .pending) ∧
    (processJob j input o now).job.outputVideoPath = "" ∧
    (∀ c ∈ (processJob j input o now).calls, c.idx ≤ ifail) := by
  have hstart := Job.start_of_inQueue j now hst
  simp only [processJob, hgen, hstart, himg, haud, hres, henc, hsplit]
  refine chunksPhase_first_failure _ input o now _ audioChunks ifail hdry rfl ?_ ?_ ?_
    hlen hcan hok hfail hne
  · exact hout
  · show ifail < (buildChunks j.id audioChunks).length
    rw [buildChunks_length]
    exact hlen
  · intro k c hc
    have hc2 : (buildChunks j.id audioChunks)[k]? = some c := hc
    exact (buildChunks_get? j.id audioChunks k c hc2).1

/-- The §3 progress/status invariant of one persisted job snapshot: progress
in [0, 100], with progress 100 exactly on COMPLETED. -/
def persistedOk (s : Job) : Prop :=
  0 ≤ s.progress ∧ s.progress ≤ 100 ∧
  (s.progress = 100 → s.status = .completed) ∧
  (s.status = .completed → s.progress = 100)

theorem failJob_C4 (j5 : Job) (msg : String) (now : Nat) (saves : List Job)
    (calls : List PCall) (writes : List Int)
    (hp0 : 0 ≤ j5.progress) (hp90 : j5.progress ≤ 90)
    (h5ne : j5.status ≠ .completed)
    (hsaves : ∀ s ∈ saves, persistedOk s)
    (hchain : List.Chain' (· ≤ ·) writes)
    (hbound : ∀ p ∈ writes, 0 ≤ p ∧ p ≤ 100) :
    List.Chain' (· ≤ ·) (failJob j5 msg now saves calls writes).progressWrites ∧
    (∀ p ∈ (failJob j5 msg now saves calls writes).progressWrites, 0 ≤ p ∧ p ≤ 100) ∧
    (∀ s ∈ (failJob j5 msg now saves calls writes).saves, persistedOk s) := by
  refine ⟨hchain, hbound, ?_⟩
  intro s hs
  simp only [failJob] at hs
  rcases List.mem_append.mp hs with hs1 | hs2
  · exact hsaves s hs1
  · simp only [List.mem_singleton] at hs2
    subst hs2
    have hfp : ((j5.fail msg now).1).progress = j5.progress := (fail_fields j5 msg now).1
    have hfst := (fail_fields j5 msg now).2.2.2.2.2
    refine ⟨by omega, by omega, by omega, ?_⟩
    intro hcomp
    exfalso
    rcases hfst with h | h
    · rw [hcomp] at h
      cases h
    · rw [hcomp] at h
      exact h5ne h.symm

theorem completeRun_C4 (j5 : Job) (vp vu : String) (now : Nat) (saves : List Job)
    (calls : List PCall) (writes : List Int)
    (h5s : j5.status = .running)
    (hsaves : ∀ s ∈ saves, persistedOk s)
    (hchain : List.Chain' (· ≤ ·) writes)
    (hbound : ∀ p ∈ writes, 0 ≤ p ∧ p ≤ 100) :
    List.Chain' (· ≤ ·) (completeRun j5 vp vu now saves calls writes).progressWrites ∧
    (∀ p ∈ (completeRun j5 vp vu now saves calls writes).progressWrites, 0 ≤ p ∧ p ≤ 100) ∧
    (∀ s ∈ (completeRun j5 vp vu now saves calls writes).saves, persistedOk s) := by
  unfold completeRun
  rw [Job.complete_of_running _ now
    (by rw [(updateProgress_fields _ _ _).1, (setOutput_fields _ _ _ _).1, h5s])]
  have hp100 : (((j5.setOutput vp vu now).updateProgress 100 now)).progress = 100 :=
    updateProgress_progress_eq _ 100 now (by norm_num) (by norm_num)
  refine ⟨?_, ?_, ?_⟩
  · exact chain'_append_singleton hchain (fun x hx => (hbound x hx).2)
  · intro p hp
    rcases List.mem_append.mp hp with hp1 | hp2
    · exact hbound p hp1
    · simp only [List.mem_singleton] at hp2
      subst hp2
      norm_num
  · intro s hs
    rcases List.mem_append.mp hs with hs1 | hs2
    · exact hsaves s hs1
    · simp only [List.mem_singleton] at hs2
      subst hs2
      exact ⟨by rw [hp100]; norm_num, by rw [hp100], fun _ => rfl, fun _ => by rw [hp100]⟩

/-- Progress bookkeeping of the chunk phase: writes are non-decreasing and in
range, and every persisted snapshot satisfies the progress/status invariant. -/
theorem chunksPhase_progress (j4 : Job) (input : PVInput) (o : RunOracle) (now : Nat)
    (j1 : Job) (audioChunks : List String)
    (h1s : j1.status = .running) (h1p : j1.progress = 0)
    (h4s : j4.status = .running) (h4p : j4.progress = 0) :
    List.Chain' (· ≤ ·) (processJobChunksPhase j4 input o now j1 audioChunks).progressWrites ∧
    (∀ p ∈ (processJobChunksPhase j4 input o now j1 audioChunks).progressWrites,
      0 ≤ p ∧ p ≤ 100) ∧
    (∀ s ∈ (processJobChunksPhase j4 input o now j1 audioChunks).saves, persistedOk s) := by
  have hj1 : persistedOk j1 := ⟨by omega, by omega, by omega, by rw [h1s]; intro h; cases h⟩
  have hj4 : persistedOk j4 := ⟨by omega, by omega, by omega, by rw [h4s]; intro h; cases h⟩
  unfold processJobChunksPhase
  by_cases hdry : input.dryRun = true
  · rw [if_pos hdry]
    rw [Job.complete_of_running _ now (by rw [(updateProgress_fields _ _ _).1, h4s])]
    have hp100 : ((j4.updateProgress 100 now)).progress = 100 :=
      updateProgress_progress_eq _ 100 now (by norm_num) (by norm_num)
    refine ⟨by simp, by intro p hp; simp at hp; subst hp; norm_num, ?_⟩
    intro s hs
    simp only [List.mem_cons, List.mem_singleton, List.not_mem_nil, or_false] at hs
    rcases hs with rfl | rfl | rfl
    · exact hj1
    · exact hj4
    · exact ⟨by rw [hp100]; norm_num, by rw [hp100], fun _ => rfl, fun _ => by rw [hp100]⟩
  · rw [if_neg hdry]
    rcases hseq : processChunksSeqAux o.chunkOracles o.cancelBefore audioChunks.length now
      audioChunks 0 j4 [] [] [] [] with ⟨j5, calls, chunkSaves, writes, res⟩
    obtain ⟨ha1, ha2, ha3, ha4, newSaves, newWrites, hc1, hc2, hc3, hc4, hc5, hc6⟩ :=
      processChunksSeqAux_spec o.chunkOracles o.cancelBefore audioChunks.length now
        audioChunks 0 j4 [] [] [] [] ⟨j5, calls, chunkSaves, writes, res⟩ hseq
        (by omega) (by rw [h4p]; simp) (by rw [h4p])
    simp only at ha1 ha2 ha3 ha4 hc1 hc2 hc3 hc4 hc5 hc6
    subst hc1
    subst hc2
    simp only [List.nil_append] at *
    have h5s : j5.status = .running := by rw [ha1, h4s]
    have hwchain : List.Chain' (· ≤ ·) writes := hc5.tail
    have hwbound : ∀ p ∈ writes, 0 ≤ p ∧ p ≤ 100 := by
      intro p hp
      have := hc6 p hp
      omega
    have hsavesAll : ∀ s ∈ [j1, j4] ++ chunkSaves, persistedOk s := by
      intro s hs
      rcases List.mem_append.mp hs with hs1 | hs2
      · simp only [List.mem_cons, List.mem_singleton, List.not_mem_nil, or_false] at hs1
        rcases hs1 with rfl | rfl
        · exact hj1
        · exact hj4
      · have hst2 : s.status = .running := by rw [hc4 s hs2, h4s]
        have hpmem : s.progress ∈ writes := by
          rw [← hc3]
          exact List.mem_map_of_mem _ hs2
        have := hc6 _ hpmem
        exact ⟨by omega, by omega, by omega, by rw [hst2]; intro h; cases h⟩
    rcases res with e | vps
    · exact failJob_C4 j5 _ now _ calls writes ha3 ha4 (by rw [h5s]; intro h; cases h)
        hsavesAll hwchain hwbound
    · rcases hjoin : o.join with e | u
      · exact failJob_C4 j5 _ now _ calls writes ha3 ha4 (by rw [h5s]; intro h; cases h)
          hsavesAll hwchain hwbound
      · by_cases hpush : input.pushToS3 = true
        · rw [hpush]
          rcases hopen : o.openOutput with e | u2
          · exact failJob_C4 j5 _ now _ calls writes ha3 ha4
              (by rw [h5s]; intro h; cases h) hsavesAll hwchain hwbound
          · rcases hup : o.upload with e | url
            · exact failJob_C4 j5 _ now _ calls writes ha3 ha4
                (by rw [h5s]; intro h; cases h) hsavesAll hwchain hwbound
            · exact completeRun_C4 j5 _ _ now _ calls writes h5s hsavesAll hwchain hwbound
        · have hpush2 : input.pushToS3 = false := by
            revert hpush
            cases input.pushToS3 <;> simp
          rw [hpush2]
          exact completeRun_C4 j5 _ _ now _ calls writes h5s hsavesAll hwchain hwbound

/-- C4: over one processing run started on a fresh IN_QUEUE job with progress
0, the sequence of Progress values written by UpdateProgress is non-decreasing
and stays within 0..100, and every snapshot the run persists satisfies the
invariant that progress is in [0, 100] and equals 100 exactly when the status
is COMPLETED. -/
theorem run_progress_monotone_and_completed_iff_100
    (j : Job) (input : PVInput) (o : RunOracle) (now : Nat)
    (hst : j.status = .inQueue) (hp : j.progress = 0) :
    List.Chain' (· ≤ ·) (processJob j input o now).progressWrites ∧
    (∀ p ∈ (processJob j input o now).progressWrites, 0 ≤ p ∧ p ≤ 100) ∧
    (∀ s ∈ (processJob j input o now).saves, persistedOk s) := by
  have hstart := Job.start_of_inQueue j now hst
  have hsaves1 : ∀ s ∈ [{ j with status := Status.running, updatedAt := now, startedAt := now }], persistedOk s := by
    intro s hs
    simp only [List.mem_cons, List.not_mem_nil, or_false] at hs
    subst hs
    exact ⟨by simp [hp], by simp [hp], by simp [hp], by simp⟩
  unfold processJob
  rcases hgen : o.getGen with e | u
  · exact failJob_C4 j e now [] [] [] (by omega) (by omega)
      (by rw [hst]; intro h; cases h) (by simp) (by simp) (by simp)
  · rw [hstart]
    rcases himg : o.saveImage with e | imagePath
    · exact failJob_C4 _ _ now _ [] [] (by simp [hp]) (by simp [hp]) (by simp)
        hsaves1 (by simp) (by simp)
    · rcases haud : o.saveAudio with e | audioPath
      · exact failJob_C4 _ _ now _ [] [] (by simp [hp]) (by simp [hp]) (by simp)
          hsaves1 (by simp) (by simp)
      · rcases hres : o.resize with e | u2
        · exact failJob_C4 _ _ now _ [] [] (by simp [hp]) (by simp [hp]) (by simp)
            hsaves1 (by simp) (by simp)
        · rcases henc : o.encodeImage with e | imgB64
          · exact failJob_C4 _ _ now _ [] [] (by simp [hp]) (by simp [hp]) (by simp)
              hsaves1 (by simp) (by simp)
          · rcases hsplit : o.split with e | audioChunks
            · exact failJob_C4 _ _ now _ [] [] (by simp [hp]) (by simp [hp]) (by simp)
                hsaves1 (by simp) (by simp)
            · exact chunksPhase_progress _ input o now _ audioChunks (by simp)
                (by simp [hp]) (by simp [Job.setChunks]) (by simp [Job.setChunks, hp])

/-- Closed instance of C2: three chunks, the first two succeed against an
inline-video provider, chunk 2 reports a terminal FAILED poll status; the
job ends FAILED. -/
theorem run_stops_at_first_chunk_failure_witness :
    (processJob { id := "job-1" : Job } { dryRun := false }
      ⟨.ok (), .ok "ip", .ok "ap", .ok (), .ok "ib", .ok ["a0", "a1", "a2"],
        fun k => if k < 2 then
          ⟨.ok "ab", .ok "pid", [.response ⟨.completed, "v64", "", ""⟩], .ok (), .ok "cp", .ok ()⟩
        else
          ⟨.ok "ab", .ok "pid", [.response ⟨.failed, "", "", "boom"⟩], .ok (), .ok "", .ok ()⟩,
        fun _ => false, .ok (), .ok (), .ok ""⟩ 3).job.status = .failed :=
  (run_stops_at_first_chunk_failure { id := "job-1" : Job } { dryRun := false }
    ⟨.ok (), .ok "ip", .ok "ap", .ok (), .ok "ib", .ok ["a0", "a1", "a2"],
      fun k => if k < 2 then
        ⟨.ok "ab", .ok "pid", [.response ⟨.completed, "v64", "", ""⟩], .ok (), .ok "cp", .ok ()⟩
      else
        ⟨.ok "ab", .ok "pid", [.response ⟨.failed, "", "", "boom"⟩], .ok (), .ok "", .ok ()⟩,
      fun _ => false, .ok (), .ok (), .ok ""⟩ 3
    ["a0", "a1", "a2"] "ip" "ap" "ib" 2 rfl rfl rfl rfl rfl rfl rfl rfl rfl
    (fun _ _ => rfl)
    (fun k hk => by simp only [if_pos hk]; decide)
    (by decide)
    (by refine ⟨?_, ?_, ?_, ?_, ?_⟩ <;> exact fun e h => Except.noConfusion h)
    (by decide)).1

/-- Closed instance of C4: the same three-chunk run; the persisted write
trace of the run is non-decreasing. -/
theorem run_progress_monotone_witness :
    List.Chain' (· ≤ ·)
      (processJob { id := "job-1" : Job } { dryRun := false }
        ⟨.ok (), .ok "ip", .ok "ap", .ok (), .ok "ib", .ok ["a0", "a1", "a2"],
          fun _ =>
            ⟨.ok "ab", .ok "pid", [.response ⟨.completed, "v64", "", ""⟩], .ok (), .ok "cp",
              .ok ()⟩,
          fun _ => false, .ok (), .ok (), .ok ""⟩ 3).progressWrites :=
  (run_progress_monotone_and_completed_iff_100 { id := "job-1" : Job } { dryRun := false }
    ⟨.ok (), .ok "ip", .ok "ap", .ok (), .ok "ib", .ok ["a0", "a1", "a2"],
      fun _ =>
        ⟨.ok "ab", .ok "pid", [.response ⟨.completed, "v64", "", ""⟩], .ok (), .ok "cp",
          .ok ()⟩,
      fun _ => false, .ok (), .ok (), .ok ""⟩ 3 rfl rfl).1

/-- Closed instance of C9: a dry run over two chunks ends COMPLETED. -/
theorem dry_run_completes_witness :
    (processJob { id := "job-1" : Job } { dryRun := true }
      ⟨.ok (), .ok "ip", .ok "ap", .ok (), .ok "ib", .ok ["a0", "a1"],
        fun _ => ⟨.ok "", .ok "", [], .ok (), .ok "", .ok ()⟩,
        fun _ => false, .ok (), .ok (), .ok ""⟩ 3).job.status = .completed ∧
    (processJob { id := "job-1" : Job } { dryRun := true }
      ⟨.ok (), .ok "ip", .ok "ap", .ok (), .ok "ib", .ok ["a0", "a1"],
        fun _ => ⟨.ok "", .ok "", [], .ok (), .ok "", .ok ()⟩,
        fun _ => false, .ok (), .ok (), .ok ""⟩ 3).calls = [] := by
  have h := dry_run_completes_without_provider_calls { id := "job-1" : Job }
    { dryRun := true }
    ⟨.ok (), .ok "ip", .ok "ap", .ok (), .ok "ib", .ok ["a0", "a1"],
      fun _ => ⟨.ok "", .ok "", [], .ok (), .ok "", .ok ()⟩,
      fun _ => false, .ok (), .ok (), .ok ""⟩ 3
    ["a0", "a1"] "ip" "ap" "ib" rfl rfl rfl rfl rfl rfl rfl rfl
  exact ⟨h.1, h.2.2.1⟩

end InfiniteTalk
